import Mathlib

/-!
# camFusion_Student.cpp : point/box association, box matching and time-to-collision

A shallow embedding of `src/camFusion_Student.cpp` and the properties proved of it.

Modelling conventions.

* `float` and `double` values are exact rationals (`ℚ`).  Rounding is modelled where a
  property depends on it: `roundToPrec` rounds to a binary format, and `smallerBox` is
  the shrunk region of `clusterLidarWithROI` with the roundings of its `float` and
  `double` operations; elsewhere the operations are exact.
  Where the source can produce a non-finite value (a division by zero, the quiet NaN
  it assigns) the value has type `F64`, which adds `+inf`, `-inf` and `NaN` to `ℚ`
  with the IEEE-754 rules for them.  Every zero is the positive zero.
* `int` values are unbounded integers; the pixel coordinates, box counts and vote
  counts of the program stay far below `2^31`.
* `std::vector` is `List`; an index is a `Nat` (a negative `int` index behaves like
  an index past the end).  An unchecked access out of range, a checked access that
  throws, and `end() - 1` on an empty vector make a function return `none`.
  Erasing at an iterator moves the later elements one slot down and leaves the
  iterator on the same slot.
* The array `ptBBox` is laid out row after row; a read past the end of a row fetches
  the cell the layout puts there, or the memory after the array, a parameter.
* The OpenCV pieces the file calls (`cv::Rect::contains`, `cv::norm`, the conversion
  of a `Point2f` to a `Point`) are modelled from the OpenCV definitions; `cv::norm`
  and the projected pixel of a Lidar point are parameters of the functions using them.
-/

set_option autoImplicit false

namespace CamFusion

/-! ## Part 1. Definitions -/

/-! ### Floating-point results -/

/-- A `double` that may be non-finite: a rational, plus or minus infinity, or NaN. -/
inductive F64 where
  | fin (q : ℚ)
  | pinf
  | ninf
  | nan
  deriving DecidableEq

namespace F64

/-- Unary minus. -/
def neg : F64 → F64
  | fin q => fin (-q)
  | pinf => ninf
  | ninf => pinf
  | nan => nan

/-- Absolute value (`fabs`). -/
def abs : F64 → F64
  | fin q => fin |q|
  | pinf => pinf
  | ninf => pinf
  | nan => nan

/-- Subtraction; `inf - inf` is NaN. -/
def sub : F64 → F64 → F64
  | fin a, fin b => fin (a - b)
  | nan, _ => nan
  | _, nan => nan
  | pinf, pinf => nan
  | ninf, ninf => nan
  | pinf, _ => pinf
  | ninf, _ => ninf
  | fin _, pinf => ninf
  | fin _, ninf => pinf

/-- Sign-directed infinity: `+inf` for a positive sign, `-inf` for a negative one, NaN for zero. -/
def signedInf (s : ℚ) : F64 :=
  if s = 0 then nan else if 0 < s then pinf else ninf

/-- Multiplication; `0 * inf` is NaN. -/
def mul : F64 → F64 → F64
  | fin a, fin b => fin (a * b)
  | nan, _ => nan
  | _, nan => nan
  | fin a, pinf => signedInf a
  | fin a, ninf => signedInf (-a)
  | pinf, fin b => signedInf b
  | ninf, fin b => signedInf (-b)
  | pinf, pinf => pinf
  | ninf, ninf => pinf
  | pinf, ninf => ninf
  | ninf, pinf => ninf

/-- Division; `x / 0` is an infinity with the sign of `x`, `0 / 0` and `inf / inf` are NaN. -/
def div : F64 → F64 → F64
  | fin a, fin b => if b = 0 then signedInf a else fin (a / b)
  | nan, _ => nan
  | _, nan => nan
  | fin _, pinf => fin 0
  | fin _, ninf => fin 0
  | pinf, fin b => if 0 ≤ b then pinf else ninf
  | ninf, fin b => if 0 ≤ b then ninf else pinf
  | pinf, pinf => nan
  | pinf, ninf => nan
  | ninf, pinf => nan
  | ninf, ninf => nan

/-- The comparison `a >= b`; false as soon as one side is NaN. -/
def ge : F64 → F64 → Bool
  | fin a, fin b => decide (b ≤ a)
  | nan, _ => false
  | _, nan => false
  | pinf, _ => true
  | _, ninf => true
  | fin _, pinf => false
  | ninf, fin _ => false
  | ninf, pinf => false

end F64

/-! ### Geometry (OpenCV value types) -/

/-- `cv::Point`: a pixel with `int` coordinates. -/
structure Point where
  x : Int
  y : Int
  deriving DecidableEq

/-- `cv::Point2f`: an image position with floating coordinates. -/
structure Point2f where
  x : ℚ
  y : ℚ
  deriving DecidableEq

/-- `cv::Rect`: an axis-aligned region with `int` origin and size. -/
structure Rect where
  x : Int
  y : Int
  width : Int
  height : Int
  deriving DecidableEq

/-- `cv::Rect::contains`: left and top edges inclusive, right and bottom edges exclusive. -/
def Rect.contains (r : Rect) (pt : Point) : Bool :=
  decide (r.x ≤ pt.x ∧ pt.x < r.x + r.width ∧ r.y ≤ pt.y ∧ pt.y < r.y + r.height)

/-- Conversion of a floating value to `int` as C++ does it: truncation toward zero. -/
def truncToInt (q : ℚ) : Int :=
  if 0 ≤ q then ⌊q⌋ else -⌊-q⌋

/-- `cvRound`: the nearest integer, a tie going to the even one. -/
def cvRound (q : ℚ) : Int :=
  if q - ⌊q⌋ < 1 / 2 then ⌊q⌋
  else if 1 / 2 < q - ⌊q⌋ then ⌊q⌋ + 1
  else if ⌊q⌋ % 2 = 0 then ⌊q⌋ else ⌊q⌋ + 1

/-- `cv::Point(p.x, p.y)` for floating `p.x`, `p.y`: each coordinate is truncated. -/
def Point2f.truncate (p : Point2f) : Point :=
  { x := truncToInt p.x, y := truncToInt p.y }

/-- The implicit conversion of a `Point2f` to a `Point`: each coordinate is rounded. -/
def Point2f.toPoint (p : Point2f) : Point :=
  { x := cvRound p.x, y := cvRound p.y }

/-- Difference of two image positions (`operator-` of `cv::Point2f`). -/
def Point2f.sub (p q : Point2f) : Point2f :=
  { x := p.x - q.x, y := p.y - q.y }

/-- The Euclidean length of a vector, exact whenever the squared length is the square of a
rational (used to instantiate the `norm` parameter at concrete inputs). -/
def l2norm (p : Point2f) : ℚ :=
  Rat.sqrt (p.x * p.x + p.y * p.y)

/-! ### Binary floating point -/

/-- The rounding of a real value to the binary floating-point format with `p` bits of
precision (24 for `float`, 53 for `double`): to nearest, a tie going to the even
significand.  The exponent range is not bounded (no overflow, no subnormal numbers). -/
def roundToPrec (p : Nat) (q : ℚ) : ℚ :=
  (cvRound (q / (2 : ℚ) ^ (Int.log 2 |q| + 1 - (p : Int))) : ℚ) *
    (2 : ℚ) ^ (Int.log 2 |q| + 1 - (p : Int))

/-- The `float` nearest to a value. -/
def toFloat (q : ℚ) : ℚ := roundToPrec 24 q

/-- The `double` nearest to a value. -/
def toDouble (q : ℚ) : ℚ := roundToPrec 53 q

/-! ### Data structures of the pipeline -/

/-- Modelled from the spec: `LidarPoint` of `dataStructures.h` (not among the sources), a
3D position (x forward, y left, z up) and a reflectivity `r`. -/
structure LidarPoint where
  x : ℚ
  y : ℚ
  z : ℚ
  r : ℚ
  deriving DecidableEq

/-- `cv::KeyPoint`; only the position `pt` is read by the program. -/
structure KeyPoint where
  pt : Point2f
  deriving DecidableEq

/-- `cv::DMatch`; `queryIdx` indexes the previous frame, `trainIdx` the current frame. -/
structure DMatch where
  queryIdx : Nat
  trainIdx : Nat
  deriving DecidableEq

/-- Modelled from the spec: `BoundingBox` of `dataStructures.h` (not among the sources),
with the fields the program reads or writes: identifier, region, associated Lidar points
and associated keypoint matches. -/
structure BoundingBox where
  boxID : Int
  roi : Rect
  lidarPoints : List LidarPoint
  kptMatches : List DMatch
  deriving DecidableEq

/-- Modelled from the spec: `DataFrame` of `dataStructures.h` (not among the sources), with
the fields the program reads: the keypoints and the bounding boxes of a frame. -/
structure DataFrame where
  keypoints : List KeyPoint
  boundingBoxes : List BoundingBox

/-! ### clusterLidarWithROI -/

/-- The region `smallerBox` of `clusterLidarWithROI` with exact arithmetic in place of the
`float` and `double` operations: the four `int` fields receive the floating expressions of
the source, truncated.  `smallerBox` below computes the same lines with the roundings. -/
def shrinkBox (roi : Rect) (shrinkFactor : ℚ) : Rect :=
  { x := truncToInt (roi.x + shrinkFactor * roi.width / 2)
    y := truncToInt (roi.y + shrinkFactor * roi.height / 2)
    width := truncToInt (roi.width * (1 - shrinkFactor))
    height := truncToInt (roi.height * (1 - shrinkFactor)) }

/-- The region `smallerBox` of `clusterLidarWithROI` (lines 43 to 47) with the roundings of
the source: `shrinkFactor * roi.width` and `roi.width * (1 - shrinkFactor)` are `float`
operations on the `int` converted to `float`, the division by `2.0` and the sum with
`roi.x` are `double` operations, and the result is truncated to `int`.  (The conversions
of an `int` and of a `float` to `double` are exact.) -/
def smallerBox (roi : Rect) (shrinkFactor : ℚ) : Rect :=
  { x := truncToInt
      (toDouble ((roi.x : ℚ) + toDouble (toFloat (shrinkFactor * toFloat roi.width) / 2)))
    y := truncToInt
      (toDouble ((roi.y : ℚ) + toDouble (toFloat (shrinkFactor * toFloat roi.height) / 2)))
    width := truncToInt (toFloat (toFloat roi.width * toFloat (1 - shrinkFactor)))
    height := truncToInt (toFloat (toFloat roi.height * toFloat (1 - shrinkFactor))) }


/-- The inner loop over the boxes: the positions (counted from `i`) of the boxes whose shrunk
region contains the pixel `pt`, in order (`enclosingBoxes` of the source). -/
def enclosingBoxesFrom (shrinkFactor : ℚ) (pt : Point) : Nat → List BoundingBox → List Nat
  | _, [] => []
  | i, b :: bs =>
    if (shrinkBox b.roi shrinkFactor).contains pt then
      i :: enclosingBoxesFrom shrinkFactor pt (i + 1) bs
    else enclosingBoxesFrom shrinkFactor pt (i + 1) bs

/-- The vector `enclosingBoxes` built for one Lidar point. -/
def enclosingBoxes (boundingBoxes : List BoundingBox) (shrinkFactor : ℚ) (pt : Point) :
    List Nat :=
  enclosingBoxesFrom shrinkFactor pt 0 boundingBoxes

/-- The statement `box->lidarPoints.push_back(p)` on the box at position `k`. -/
def pushLidarPoint (p : LidarPoint) : Nat → List BoundingBox → List BoundingBox
  | _, [] => []
  | 0, b :: bs => { b with lidarPoints := b.lidarPoints ++ [p] } :: bs
  | k + 1, b :: bs => b :: pushLidarPoint p k bs

/-- One iteration of the outer loop: the point is added to the enclosing box when there is
exactly one (`enclosingBoxes.size() == 1`). -/
def clusterLidarStep (shrinkFactor : ℚ) (pixel : LidarPoint → Point)
    (boundingBoxes : List BoundingBox) (p : LidarPoint) : List BoundingBox :=
  match enclosingBoxes boundingBoxes shrinkFactor (pixel p) with
  | [k] => pushLidarPoint p k boundingBoxes
  | _ => boundingBoxes

/-- The function `clusterLidarWithROI`.  The parameter `pixel` is the projection of a Lidar
point into the image (the matrix product with `P_rect_xx`, `R_rect_xx`, `RT`, the perspective
divide and the conversion to `cv::Point` of lines 28 to 37). -/
def clusterLidarWithROI (boundingBoxes : List BoundingBox) (lidarPoints : List LidarPoint)
    (shrinkFactor : ℚ) (pixel : LidarPoint → Point) : List BoundingBox :=
  lidarPoints.foldl (clusterLidarStep shrinkFactor pixel) boundingBoxes

/-- The box at position `k` contains the pixel in its shrunk region. -/
def shrunkContains (boundingBoxes : List BoundingBox) (shrinkFactor : ℚ) (pt : Point)
    (k : Nat) : Bool :=
  (boundingBoxes[k]?).any (fun b => (shrinkBox b.roi shrinkFactor).contains pt)

/-- The box at position `k` is the only one whose shrunk region contains the pixel. -/
def onlyEnclosing (boundingBoxes : List BoundingBox) (shrinkFactor : ℚ) (pt : Point)
    (k : Nat) : Bool :=
  decide (shrunkContains boundingBoxes shrinkFactor pt k = true ∧
    ∀ j < boundingBoxes.length, shrunkContains boundingBoxes shrinkFactor pt j = true → j = k)

/-! ### matchBoundingBoxes -/

/-- The positions (counted from `i`) of the boxes whose region contains the pixel `pt`, in
order: the loops filling `bboxIdsPrev` and `bboxIdsCurr`. -/
def boxIdsFrom (pt : Point) : Nat → List BoundingBox → List Nat
  | _, [] => []
  | i, b :: bs =>
    if b.roi.contains pt then i :: boxIdsFrom pt (i + 1) bs else boxIdsFrom pt (i + 1) bs

/-- The vector `bboxIdsPrev` (or `bboxIdsCurr`) of one keypoint. -/
def boxIds (boundingBoxes : List BoundingBox) (pt : Point) : List Nat :=
  boxIdsFrom pt 0 boundingBoxes

/-- The array `int ptBBox[bboxPrevSize][bboxCurrSize]`, as a function of the row and the
column; its dimensions are kept beside it.  Every write of the program is within them,
every read goes through `readCell`. -/
abbrev VoteMatrix := Nat → Nat → Nat

/-- The statement `ptBBox[prev][curr] += 1`. -/
def incrCell (ptBBox : VoteMatrix) (prev curr : Nat) : VoteMatrix :=
  fun i j => if i = prev ∧ j = curr then ptBBox i j + 1 else ptBBox i j

/-- The two nested loops over `bboxIdsPrev` and `bboxIdsCurr`. -/
def addVotes (ptBBox : VoteMatrix) (bboxIdsPrev bboxIdsCurr : List Nat) : VoteMatrix :=
  bboxIdsPrev.foldl
    (fun t prev => bboxIdsCurr.foldl (fun t2 curr => incrCell t2 prev curr) t) ptBBox

/-- The body of the loop over the matches; `none` when a keypoint index is out of range. -/
def voteStep (prevFrame currFrame : DataFrame) (ptBBox : VoteMatrix) (m : DMatch) :
    Option VoteMatrix :=
  match prevFrame.keypoints[m.queryIdx]?, currFrame.keypoints[m.trainIdx]? with
  | some kptPrev, some kptCurr =>
    some (addVotes ptBBox
      (boxIds prevFrame.boundingBoxes kptPrev.pt.truncate)
      (boxIds currFrame.boundingBoxes kptCurr.pt.truncate))
  | _, _ => none

/-- The loop over the examined matches. -/
def voteLoop (prevFrame currFrame : DataFrame) : List DMatch → VoteMatrix → Option VoteMatrix
  | [], ptBBox => some ptBBox
  | m :: ms, ptBBox =>
    match voteStep prevFrame currFrame ptBBox m with
    | some t => voteLoop prevFrame currFrame ms t
    | none => none

/-- The read `ptBBox[i][j]`.  The array is stored row after row, so the read fetches the
`int` at offset `i * bboxCurrSize + j` from its start: the cell `(i, j)` when the column is
within the row, a cell of a later row when the column is past the end of the row and the
offset still within the array, and otherwise whatever the memory after the array holds,
`mem` (a negative value there compares like `0`). -/
def readCell (ptBBox : VoteMatrix) (bboxPrevSize bboxCurrSize : Nat) (mem : Nat → Nat)
    (i j : Nat) : Nat :=
  if j < bboxCurrSize then ptBBox i j
  else if i * bboxCurrSize + j < bboxPrevSize * bboxCurrSize then
    ptBBox ((i * bboxCurrSize + j) / bboxCurrSize) ((i * bboxCurrSize + j) % bboxCurrSize)
  else mem (i * bboxCurrSize + j - bboxPrevSize * bboxCurrSize)

/-- The inner selection loop for row `i`, over the columns `js`, on the state
`(maxCnt, maxID)`. -/
def selectLoop (ptBBox : VoteMatrix) (bboxPrevSize bboxCurrSize : Nat) (mem : Nat → Nat)
    (i : Nat) : List Nat → Nat × Nat → Nat × Nat
  | [], st => st
  | j :: js, st =>
    if readCell ptBBox bboxPrevSize bboxCurrSize mem i j > st.1 then
      selectLoop ptBBox bboxPrevSize bboxCurrSize mem i js
        (readCell ptBBox bboxPrevSize bboxCurrSize mem i j, j)
    else selectLoop ptBBox bboxPrevSize bboxCurrSize mem i js st

/-- The value `maxID` chosen for row `i`: the inner loop runs over the columns
`0 .. bboxPrevSize - 1`, as in the source, from `maxCnt = 0`, `maxID = 0`. -/
def selectBest (ptBBox : VoteMatrix) (bboxPrevSize bboxCurrSize : Nat) (mem : Nat → Nat)
    (i : Nat) : Nat :=
  (selectLoop ptBBox bboxPrevSize bboxCurrSize mem i (List.range bboxPrevSize) (0, 0)).2

/-- `std::map<int, int>`: the pairs (key, value) in increasing order of the keys. -/
abbrev BestMatches := List (Int × Int)

/-- The assignment `bbBestMatches[k] = v`. -/
def mapAssign : BestMatches → Int → Int → BestMatches
  | [], k, v => [(k, v)]
  | (k0, v0) :: rest, k, v =>
    if k < k0 then (k, v) :: (k0, v0) :: rest
    else if k = k0 then (k, v) :: rest
    else (k0, v0) :: mapAssign rest k v

/-- The outer selection loop over the rows `rows`. -/
def bestMatchesLoop (ptBBox : VoteMatrix) (bboxPrevSize bboxCurrSize : Nat)
    (mem : Nat → Nat) : List Nat → BestMatches → BestMatches
  | [], bbBestMatches => bbBestMatches
  | i :: rows, bbBestMatches =>
    bestMatchesLoop ptBBox bboxPrevSize bboxCurrSize mem rows
      (mapAssign bbBestMatches (i : Int)
        (selectBest ptBBox bboxPrevSize bboxCurrSize mem i : Int))

/-- The vote matrix after the voting loop: all matches but the last are examined
(`iter != matches.end() - 1`); `none` for an empty match list. -/
def voteMatrix (dmatches : List DMatch) (prevFrame currFrame : DataFrame) :
    Option VoteMatrix :=
  match dmatches with
  | [] => none
  | _ :: _ => voteLoop prevFrame currFrame dmatches.dropLast (fun _ _ => 0)

/-- The function `matchBoundingBoxes`; `dmatches` is its parameter `matches`, `mem` the
content of the memory after the array `ptBBox`, the result is the map `bbBestMatches` on
return. -/
def matchBoundingBoxes (dmatches : List DMatch) (bbBestMatches : BestMatches)
    (prevFrame currFrame : DataFrame) (mem : Nat → Nat) : Option BestMatches :=
  match voteMatrix dmatches prevFrame currFrame with
  | some ptBBox =>
    some (bestMatchesLoop ptBBox prevFrame.boundingBoxes.length
      currFrame.boundingBoxes.length mem (List.range prevFrame.boundingBoxes.length)
      bbBestMatches)
  | none => none

/-- The value the map holds for the key `k` (`find`), if any. -/
def mapFind (bbBestMatches : BestMatches) (k : Int) : Option Int :=
  (bbBestMatches.find? (fun kv => decide (kv.1 = k))).map Prod.snd

/-- The number of examined matches whose previous keypoint lies in previous box `i` and
whose current keypoint lies in current box `j`, as the specification words the vote count. -/
def voteCount (prevFrame currFrame : DataFrame) (examined : List DMatch) (i j : Nat) : Nat :=
  (examined.filter (fun m =>
    (prevFrame.keypoints[m.queryIdx]?).any (fun kp =>
      (prevFrame.boundingBoxes[i]?).any (fun b => b.roi.contains kp.pt.truncate)) &&
    (currFrame.keypoints[m.trainIdx]?).any (fun kp =>
      (currFrame.boundingBoxes[j]?).any (fun b => b.roi.contains kp.pt.truncate)))).length

/-! ### computeTTCCamera -/

/-- `std::numeric_limits<double>::epsilon()`. -/
def epsilon : ℚ := 1 / 2 ^ 52

/-- The constant `minDist` of `computeTTCCamera`. -/
def minDist : ℚ := 90

/-- The inner keypoint loop of `computeTTCCamera` for the outer keypoints `kptsCurr_` and
`kptsPrev_`, over the matches `inner`; `none` when `at` throws. -/
def ratiosInner (norm : Point2f → ℚ) (kptsPrev kptsCurr : List KeyPoint)
    (kptsCurr_ kptsPrev_ : KeyPoint) : List DMatch → List ℚ → Option (List ℚ)
  | [], distRatio => some distRatio
  | m :: ms, distRatio =>
    match kptsCurr[m.trainIdx]?, kptsPrev[m.queryIdx]? with
    | some kptsCurr__, some kptsPrev__ =>
      if norm (kptsPrev_.pt.sub kptsPrev__.pt) > epsilon ∧
          norm (kptsCurr_.pt.sub kptsCurr__.pt) ≥ minDist then
        ratiosInner norm kptsPrev kptsCurr kptsCurr_ kptsPrev_ ms
          (distRatio ++
            [norm (kptsCurr_.pt.sub kptsCurr__.pt) / norm (kptsPrev_.pt.sub kptsPrev__.pt)])
      else ratiosInner norm kptsPrev kptsCurr kptsCurr_ kptsPrev_ ms distRatio
    | _, _ => none

/-- The outer keypoint loop of `computeTTCCamera` over the matches `outer`; every iteration
runs the inner loop over the same matches `inner`. -/
def ratiosOuter (norm : Point2f → ℚ) (kptsPrev kptsCurr : List KeyPoint)
    (inner : List DMatch) : List DMatch → List ℚ → Option (List ℚ)
  | [], distRatio => some distRatio
  | m :: ms, distRatio =>
    match kptsCurr[m.trainIdx]?, kptsPrev[m.queryIdx]? with
    | some kptsCurr_, some kptsPrev_ =>
      match ratiosInner norm kptsPrev kptsCurr kptsCurr_ kptsPrev_ inner distRatio with
      | some d => ratiosOuter norm kptsPrev kptsCurr inner ms d
      | none => none
    | _, _ => none

/-- The vector `distRatio` after the two loops: the outer iterator runs from `begin()` to
`end() - 1` exclusive, the inner one from `begin() + 1` to `end()` exclusive.  `none` for an
empty match list (`end() - 1`) and when `at` throws. -/
def distRatios (norm : Point2f → ℚ) (kptsPrev kptsCurr : List KeyPoint)
    (kptMatches : List DMatch) : Option (List ℚ) :=
  match kptMatches with
  | [] => none
  | _ :: _ => ratiosOuter norm kptsPrev kptsCurr kptMatches.tail kptMatches.dropLast []

/-- The second half of `computeTTCCamera` (lines 221 to 235): NaN for an empty `distRatio`,
else the vector is sorted and the TTC computed from its median. -/
def ttcFromDistRatio (distRatio : List ℚ) (frameRate : ℚ) : F64 :=
  if distRatio.length = 0 then F64.nan
  else
    let sorted := distRatio.insertionSort (· ≤ ·)
    let medIndex := distRatio.length / 2
    let medDistRatio :=
      if distRatio.length % 2 = 0 then (sorted.getD (medIndex - 1) 0 + sorted.getD medIndex 0) / 2
      else sorted.getD medIndex 0
    let dT := F64.div (F64.fin 1) (F64.fin frameRate)
    F64.div (F64.neg dT) (F64.sub (F64.fin 1) (F64.fin medDistRatio))

/-- The function `computeTTCCamera`; the result is the value left in `TTC`. -/
def computeTTCCamera (norm : Point2f → ℚ) (kptsPrev kptsCurr : List KeyPoint)
    (kptMatches : List DMatch) (frameRate : ℚ) : Option F64 :=
  match distRatios norm kptsPrev kptsCurr kptMatches with
  | some distRatio => some (ttcFromDistRatio distRatio frameRate)
  | none => none

/-- The median as the specification words it: the middle element of the sorted sequence when
the count is odd, the average of the two middle elements when it is even. -/
def median (xs : List ℚ) : ℚ :=
  if xs.length % 2 = 1 then (xs.insertionSort (· ≤ ·)).getD ((xs.length - 1) / 2) 0
  else ((xs.insertionSort (· ≤ ·)).getD (xs.length / 2 - 1) 0 +
    (xs.insertionSort (· ≤ ·)).getD (xs.length / 2) 0) / 2

/-- The distance ratio of two matches when the pair is kept, as the specification words it:
`distCurr / distPrev` when `distPrev` exceeds epsilon and `distCurr` is at least 90. -/
def pairRatio (norm : Point2f → ℚ) (kptsPrev kptsCurr : List KeyPoint) (a b : DMatch) :
    Option ℚ :=
  match kptsCurr[a.trainIdx]?, kptsPrev[a.queryIdx]?, kptsCurr[b.trainIdx]?,
      kptsPrev[b.queryIdx]? with
  | some ca, some pa, some cb, some pb =>
    if norm (pa.pt.sub pb.pt) > epsilon ∧ norm (ca.pt.sub cb.pt) ≥ minDist then
      some (norm (ca.pt.sub cb.pt) / norm (pa.pt.sub pb.pt))
    else none
  | _, _, _, _ => none

/-- The kept ratios over the unordered pairs of distinct matches: each match is paired once
with every later match. -/
def unorderedPairRatios (norm : Point2f → ℚ) (kptsPrev kptsCurr : List KeyPoint) :
    List DMatch → List ℚ
  | [] => []
  | a :: rest =>
    rest.filterMap (pairRatio norm kptsPrev kptsCurr a) ++
      unorderedPairRatios norm kptsPrev kptsCurr rest


/-! ### computeTTCLidar -/

/-- The mean of `x` as the source computes it: the sum accumulated from `0`, divided by
`size()`; NaN for an empty vector. -/
def meanX (lidarPoints : List LidarPoint) : F64 :=
  F64.div (F64.fin (lidarPoints.foldl (fun acc p => acc + p.x) 0))
    (F64.fin lidarPoints.length)

/-- The test `fabs(meanX - it->x) >= 0.03 * meanX` of the trimming loops. -/
def isOutlierX (mean : F64) (p : LidarPoint) : Bool :=
  F64.ge (F64.abs (F64.sub mean (F64.fin p.x))) (F64.mul (F64.fin (3 / 100)) mean)

/-- A trimming loop `for (it = begin(); it < end(); ++it) if (...) erase(it);`.  After an
erase the iterator stands on the element that followed the erased one, and `++it` steps over
it: that element is kept without being tested. -/
def trimLoop (mean : F64) : List LidarPoint → List LidarPoint
  | [] => []
  | [p] => if isOutlierX mean p then [] else [p]
  | p :: q :: rest =>
    if isOutlierX mean p then q :: trimLoop mean rest else p :: trimLoop mean (q :: rest)

/-- What `computeTTCLidar` leaves: the value of `TTC` and the two trimmed point vectors. -/
structure LidarTTC where
  TTC : F64
  lidarPointsPrev : List LidarPoint
  lidarPointsCurr : List LidarPoint

/-- The function `computeTTCLidar`. -/
def computeTTCLidar (lidarPointsPrev lidarPointsCurr : List LidarPoint) (frameRate : ℚ) :
    LidarTTC :=
  let prevTrimmed := trimLoop (meanX lidarPointsPrev) lidarPointsPrev
  let currTrimmed := trimLoop (meanX lidarPointsCurr) lidarPointsCurr
  let meanXPre := meanX prevTrimmed
  let meanXCur := meanX currTrimmed
  let diff := F64.sub meanXPre meanXCur
  { TTC := F64.div (F64.mul meanXCur (F64.div (F64.fin 1) (F64.fin frameRate))) diff
    lidarPointsPrev := prevTrimmed
    lidarPointsCurr := currTrimmed }

/-- The mean of `x` over a point set, as the specification words it. -/
def meanOfX (pts : List LidarPoint) : ℚ :=
  (pts.map (fun p => p.x)).sum / pts.length

/-- A point deviates from the mean `m` by at least 3% of `m`. -/
def deviates (m : ℚ) (p : LidarPoint) : Prop :=
  3 / 100 * m ≤ |p.x - m|

instance (m : ℚ) (p : LidarPoint) : Decidable (deviates m p) := by
  unfold deviates
  infer_instance

/-! ### clusterKptMatchesWithROI -/

/-- The first loop: a match whose current keypoint lies in the region is appended to the
match vector `acc` of the box; `none` when `trainIdx` is out of range. -/
def assignLoop (roi : Rect) (kptsCurr : List KeyPoint) :
    List DMatch → List DMatch → Option (List DMatch)
  | [], acc => some acc
  | m :: ms, acc =>
    match kptsCurr[m.trainIdx]? with
    | some currKeyPoint =>
      if roi.contains currKeyPoint.pt.toPoint then assignLoop roi kptsCurr ms (acc ++ [m])
      else assignLoop roi kptsCurr ms acc
    | none => none

/-- The second loop: the displacements of the matches of the box, added to `meanDist`;
`none` when `at` throws. -/
def sumDist (norm : Point2f → ℚ) (kptsPrev kptsCurr : List KeyPoint) :
    List DMatch → ℚ → Option ℚ
  | [], meanDist => some meanDist
  | m :: ms, meanDist =>
    match kptsCurr[m.trainIdx]?, kptsPrev[m.queryIdx]? with
    | some kptsCurr_, some kptsPrev_ =>
      sumDist norm kptsPrev kptsCurr ms (meanDist + norm (kptsCurr_.pt.sub kptsPrev_.pt))
    | _, _ => none

/-- The third loop: a match with `dist >= meanDist * 2` is erased, the iterator advances
only past a match that is kept; `none` when `at` throws. -/
def eraseLoop (norm : Point2f → ℚ) (kptsPrev kptsCurr : List KeyPoint) (meanDist : F64) :
    List DMatch → Option (List DMatch)
  | [] => some []
  | m :: ms =>
    match kptsCurr[m.trainIdx]?, kptsPrev[m.queryIdx]? with
    | some kptsCurr_, some kptsPrev_ =>
      match eraseLoop norm kptsPrev kptsCurr meanDist ms with
      | some kept =>
        if F64.ge (F64.fin (norm (kptsCurr_.pt.sub kptsPrev_.pt)))
            (F64.mul meanDist (F64.fin 2)) then some kept
        else some (m :: kept)
      | none => none
    | _, _ => none

/-- The function `clusterKptMatchesWithROI`; the result is the box on return. -/
def clusterKptMatchesWithROI (norm : Point2f → ℚ) (boundingBox : BoundingBox)
    (kptsPrev kptsCurr : List KeyPoint) (kptMatches : List DMatch) : Option BoundingBox :=
  match assignLoop boundingBox.roi kptsCurr kptMatches boundingBox.kptMatches with
  | some assigned =>
    match sumDist norm kptsPrev kptsCurr assigned 0 with
    | some total =>
      match eraseLoop norm kptsPrev kptsCurr
          (F64.div (F64.fin total) (F64.fin assigned.length)) assigned with
      | some kept => some { boundingBox with kptMatches := kept }
      | none => none
    | none => none
  | none => none

/-- The current keypoint of a match lies inside the region (as the program tests it). -/
def currInside (roi : Rect) (kptsCurr : List KeyPoint) (m : DMatch) : Bool :=
  (kptsCurr[m.trainIdx]?).any (fun kp => roi.contains kp.pt.toPoint)

/-- The displacement `|currPt - prevPt|` of a match (`0` for a match without keypoints). -/
def displacement (norm : Point2f → ℚ) (kptsPrev kptsCurr : List KeyPoint) (m : DMatch) : ℚ :=
  match kptsCurr[m.trainIdx]?, kptsPrev[m.queryIdx]? with
  | some c, some p => norm (c.pt.sub p.pt)
  | _, _ => 0

/-- The mean displacement over the matches whose current keypoint lies inside the region. -/
def meanDisplacement (norm : Point2f → ℚ) (roi : Rect) (kptsPrev kptsCurr : List KeyPoint)
    (kptMatches : List DMatch) : ℚ :=
  ((kptMatches.filter (currInside roi kptsCurr)).map
      (displacement norm kptsPrev kptsCurr)).sum /
    (kptMatches.filter (currInside roi kptsCurr)).length


/-- Example frame: one keypoint at `(10, 10)` and one box, which contains it. -/
def frameOneBox : DataFrame :=
  { keypoints := [⟨⟨10, 10⟩⟩], boundingBoxes := [⟨0, ⟨0, 0, 100, 100⟩, [], []⟩] }

/-- Example frame: one keypoint at `(110, 110)` and two boxes; only box 1 contains it. -/
def frameTwoBoxes : DataFrame :=
  { keypoints := [⟨⟨110, 110⟩⟩],
    boundingBoxes := [⟨0, ⟨0, 0, 50, 50⟩, [], []⟩, ⟨1, ⟨100, 100, 50, 50⟩, [], []⟩] }


/-! ## Part 2. Theorems -/

/-! ### clusterLidarWithROI -/

theorem mem_enclosingBoxesFrom (s : ℚ) (pt : Point) (bs : List BoundingBox) :
    ∀ (i k : Nat), k ∈ enclosingBoxesFrom s pt i bs ↔
      ∃ j, k = i + j ∧ shrunkContains bs s pt j = true := by
  induction bs with
  | nil => intro i k; simp [enclosingBoxesFrom, shrunkContains]
  | cons b bs ih =>
    intro i k
    have hstep : (∃ j, k = i + j ∧ shrunkContains (b :: bs) s pt j = true) ↔
        ((k = i ∧ (shrinkBox b.roi s).contains pt = true) ∨
          ∃ j, k = i + 1 + j ∧ shrunkContains bs s pt j = true) := by
      constructor
      · rintro ⟨j, hk, hj⟩
        cases j with
        | zero => left; exact ⟨by omega, by simpa [shrunkContains] using hj⟩
        | succ j => right; exact ⟨j, by omega, by simpa [shrunkContains] using hj⟩
      · rintro (⟨hk, hc⟩ | ⟨j, hk, hj⟩)
        · exact ⟨0, by omega, by simpa [shrunkContains] using hc⟩
        · exact ⟨j + 1, by omega, by simpa [shrunkContains] using hj⟩
    rw [hstep]
    by_cases hc : (shrinkBox b.roi s).contains pt = true
    · simp [enclosingBoxesFrom, hc, ih]
    · simp [enclosingBoxesFrom, hc, ih]

theorem enclosingBoxesFrom_sorted (s : ℚ) (pt : Point) (bs : List BoundingBox) :
    ∀ i : Nat, (enclosingBoxesFrom s pt i bs).Sorted (· < ·) := by
  induction bs with
  | nil => intro i; simp [enclosingBoxesFrom]
  | cons b bs ih =>
    intro i
    by_cases hc : (shrinkBox b.roi s).contains pt = true
    · simp only [enclosingBoxesFrom, hc, if_true, List.sorted_cons]
      refine ⟨?_, ih (i + 1)⟩
      intro k hk
      obtain ⟨j, hj, -⟩ := (mem_enclosingBoxesFrom s pt bs (i + 1) k).1 hk
      omega
    · simpa [enclosingBoxesFrom, hc] using ih (i + 1)

theorem nodup_eq_singleton_iff {l : List Nat} (hl : l.Nodup) (k : Nat) :
    l = [k] ↔ ∀ x, x ∈ l ↔ x = k := by
  constructor
  · rintro rfl x; simp
  · intro h
    match l, hl, h with
    | [], _, h => exact absurd ((h k).2 rfl) (by simp)
    | [a], _, h =>
      have := (h a).1 (by simp)
      simp [this]
    | a :: b :: t, hl, h =>
      have ha := (h a).1 (by simp)
      have hb := (h b).1 (by simp)
      simp [ha, hb] at hl

theorem shrunkContains_lt {bs : List BoundingBox} {s : ℚ} {pt : Point} {k : Nat}
    (h : shrunkContains bs s pt k = true) : k < bs.length := by
  by_contra hk
  have : bs[k]? = none := List.getElem?_eq_none (by omega)
  simp [shrunkContains, this] at h

theorem enclosingBoxes_eq_singleton (bs : List BoundingBox) (s : ℚ) (pt : Point) (k : Nat) :
    enclosingBoxes bs s pt = [k] ↔ onlyEnclosing bs s pt k = true := by
  unfold enclosingBoxes
  rw [nodup_eq_singleton_iff (enclosingBoxesFrom_sorted s pt bs 0).nodup]
  simp only [mem_enclosingBoxesFrom, Nat.zero_add, onlyEnclosing, decide_eq_true_eq]
  constructor
  · intro h
    refine ⟨?_, ?_⟩
    · obtain ⟨j, hj, hc⟩ := (h k).2 rfl
      rwa [hj]
    · intro j _ hc
      exact (h j).1 ⟨j, rfl, hc⟩
  · rintro ⟨hk, huniq⟩ x
    constructor
    · rintro ⟨j, hj, hc⟩
      rw [hj]
      exact huniq j (shrunkContains_lt hc) hc
    · rintro rfl
      exact ⟨x, rfl, hk⟩

theorem getElem?_pushLidarPoint (p : LidarPoint) :
    ∀ (bs : List BoundingBox) (k j : Nat),
      (pushLidarPoint p k bs)[j]? =
        if j = k then (bs[j]?).map (fun b => { b with lidarPoints := b.lidarPoints ++ [p] })
        else bs[j]? := by
  intro bs
  induction bs with
  | nil => intro k j; cases k <;> simp [pushLidarPoint]
  | cons b bs ih =>
    intro k j
    cases k with
    | zero =>
      cases j with
      | zero => simp [pushLidarPoint]
      | succ j => simp [pushLidarPoint]
    | succ k =>
      cases j with
      | zero => simp [pushLidarPoint]
      | succ j => simp [pushLidarPoint, ih k j]

theorem map_roi_pushLidarPoint (p : LidarPoint) :
    ∀ (bs : List BoundingBox) (k : Nat),
      (pushLidarPoint p k bs).map BoundingBox.roi = bs.map BoundingBox.roi := by
  intro bs
  induction bs with
  | nil => intro k; cases k <;> simp [pushLidarPoint]
  | cons b bs ih =>
    intro k
    cases k with
    | zero => simp [pushLidarPoint]
    | succ k => simp [pushLidarPoint, ih k]

theorem map_roi_clusterLidarStep (s : ℚ) (pixel : LidarPoint → Point)
    (bs : List BoundingBox) (p : LidarPoint) :
    (clusterLidarStep s pixel bs p).map BoundingBox.roi = bs.map BoundingBox.roi := by
  unfold clusterLidarStep
  split
  · exact map_roi_pushLidarPoint p bs _
  · rfl

theorem shrunkContains_congr {bs bs' : List BoundingBox}
    (h : bs.map BoundingBox.roi = bs'.map BoundingBox.roi) (s : ℚ) (pt : Point) (k : Nat) :
    shrunkContains bs s pt k = shrunkContains bs' s pt k := by
  have hk : (bs.map BoundingBox.roi)[k]? = (bs'.map BoundingBox.roi)[k]? := by rw [h]
  simp only [List.getElem?_map] at hk
  unfold shrunkContains
  cases h1 : bs[k]? <;> cases h2 : bs'[k]? <;> simp_all

theorem onlyEnclosing_congr {bs bs' : List BoundingBox}
    (h : bs.map BoundingBox.roi = bs'.map BoundingBox.roi) (s : ℚ) (pt : Point) (k : Nat) :
    onlyEnclosing bs s pt k = onlyEnclosing bs' s pt k := by
  have hlen : bs.length = bs'.length := by simpa using congrArg List.length h
  unfold onlyEnclosing
  simp only [shrunkContains_congr h, hlen]

theorem getElem?_clusterLidarStep (s : ℚ) (pixel : LidarPoint → Point)
    (bs : List BoundingBox) (p : LidarPoint) (k : Nat) :
    (clusterLidarStep s pixel bs p)[k]? =
      (bs[k]?).map (fun b =>
        { b with lidarPoints :=
            b.lidarPoints ++ (if onlyEnclosing bs s (pixel p) k then [p] else []) }) := by
  unfold clusterLidarStep
  split
  · next k0 hk0 =>
    have h0 := (enclosingBoxes_eq_singleton bs s (pixel p) k0).1 hk0
    rw [getElem?_pushLidarPoint]
    by_cases hk : k = k0
    · subst hk; simp [h0]
    · have hne : onlyEnclosing bs s (pixel p) k = false := by
        cases hb : onlyEnclosing bs s (pixel p) k
        · rfl
        · exfalso
          have h1 := (enclosingBoxes_eq_singleton bs s (pixel p) k).2 hb
          rw [hk0] at h1
          simp at h1
          exact hk h1.symm
      simp [hk, hne]
  · next hnot =>
    have hne : onlyEnclosing bs s (pixel p) k = false := by
      cases hb : onlyEnclosing bs s (pixel p) k
      · rfl
      · exact absurd ((enclosingBoxes_eq_singleton bs s (pixel p) k).2 hb) (hnot k)
    simp [hne]

theorem getElem?_clusterLidarWithROI (s : ℚ) (pixel : LidarPoint → Point)
    (pts : List LidarPoint) :
    ∀ (bs : List BoundingBox) (k : Nat),
      (clusterLidarWithROI bs pts s pixel)[k]? =
        (bs[k]?).map (fun b =>
          { b with lidarPoints :=
              b.lidarPoints ++ pts.filter (fun p => onlyEnclosing bs s (pixel p) k) }) := by
  induction pts with
  | nil =>
    intro bs k
    simp [clusterLidarWithROI]
  | cons p pts ih =>
    intro bs k
    have hstep := ih (clusterLidarStep s pixel bs p) k
    unfold clusterLidarWithROI at hstep ⊢
    rw [List.foldl_cons, hstep, getElem?_clusterLidarStep]
    have hcongr : ∀ q, onlyEnclosing (clusterLidarStep s pixel bs p) s (pixel q) k =
        onlyEnclosing bs s (pixel q) k :=
      fun q => onlyEnclosing_congr (map_roi_clusterLidarStep s pixel bs p) s (pixel q) k
    simp only [hcongr]
    cases hb : bs[k]? with
    | none => rfl
    | some b =>
      by_cases ho : onlyEnclosing bs s (pixel p) k = true
      · simp [List.filter_cons, ho]
      · simp [List.filter_cons, ho]

/-- C1. `clusterLidarWithROI` appends a range point to the box at position `k` exactly when
that box is the only one whose shrunk region contains the projected pixel: the output box
`k` is the input box `k` followed by those points, in input order, and nothing else changes.
No point is the only-enclosed point of two different boxes, so each point is appended to at
most one box; it is appended to none when no shrunk region contains its pixel and when two
different shrunk regions do. -/
theorem clusterLidarWithROI_exclusive (boundingBoxes : List BoundingBox)
    (lidarPoints : List LidarPoint) (shrinkFactor : ℚ) (pixel : LidarPoint → Point)
    (_h0 : 0 ≤ shrinkFactor) (_h1 : shrinkFactor < 1) :
    (∀ k : Nat,
      (clusterLidarWithROI boundingBoxes lidarPoints shrinkFactor pixel)[k]? =
        (boundingBoxes[k]?).map (fun b =>
          { b with
            lidarPoints := b.lidarPoints ++ lidarPoints.filter
              (fun p => onlyEnclosing boundingBoxes shrinkFactor (pixel p) k) })) ∧
    (∀ (p : LidarPoint) (k k' : Nat),
      onlyEnclosing boundingBoxes shrinkFactor (pixel p) k = true →
      onlyEnclosing boundingBoxes shrinkFactor (pixel p) k' = true → k = k') ∧
    (∀ p : LidarPoint,
      (∀ j, shrunkContains boundingBoxes shrinkFactor (pixel p) j = false) →
      ∀ k, onlyEnclosing boundingBoxes shrinkFactor (pixel p) k = false) ∧
    (∀ (p : LidarPoint) (j j' : Nat), j ≠ j' →
      shrunkContains boundingBoxes shrinkFactor (pixel p) j = true →
      shrunkContains boundingBoxes shrinkFactor (pixel p) j' = true →
      ∀ k, onlyEnclosing boundingBoxes shrinkFactor (pixel p) k = false) := by
  refine ⟨getElem?_clusterLidarWithROI shrinkFactor pixel lidarPoints boundingBoxes,
    ?_, ?_, ?_⟩
  · intro p k k' hk hk'
    simp only [onlyEnclosing, decide_eq_true_eq] at hk hk'
    exact (hk'.2 k (shrunkContains_lt hk.1) hk.1)
  · intro p hnone k
    simp [onlyEnclosing, hnone k]
  · intro p j j' hne hj hj' k
    simp only [onlyEnclosing, decide_eq_false_iff_not]
    rintro ⟨-, huniq⟩
    exact hne ((huniq j (shrunkContains_lt hj) hj).trans
      (huniq j' (shrunkContains_lt hj') hj').symm)

/-- C1 at a concrete input: two overlapping boxes, shrink factor `1/10`, and four range
points whose pixels fall in the first box only, in both, in none and in the second only. -/
theorem clusterLidarWithROI_exclusive_witness :
    (0 : ℚ) ≤ 1 / 10 ∧ (1 / 10 : ℚ) < 1 ∧
    ∀ k : Nat,
      (clusterLidarWithROI
        [ { boxID := 0, roi := ⟨0, 0, 100, 100⟩, lidarPoints := [], kptMatches := [] },
          { boxID := 1, roi := ⟨50, 0, 100, 100⟩, lidarPoints := [], kptMatches := [] } ]
        [⟨10, 10, 0, 0⟩, ⟨60, 10, 0, 0⟩, ⟨200, 10, 0, 0⟩, ⟨100, 50, 0, 0⟩] (1 / 10)
        (fun p => ⟨truncToInt p.x, truncToInt p.y⟩))[k]? =
      (([ { boxID := 0, roi := ⟨0, 0, 100, 100⟩, lidarPoints := [], kptMatches := [] },
          { boxID := 1, roi := ⟨50, 0, 100, 100⟩, lidarPoints := [], kptMatches := [] } ] :
          List BoundingBox)[k]?).map (fun b =>
        { b with
          lidarPoints := b.lidarPoints ++
            ([⟨10, 10, 0, 0⟩, ⟨60, 10, 0, 0⟩, ⟨200, 10, 0, 0⟩, ⟨100, 50, 0, 0⟩] :
              List LidarPoint).filter
              (fun p => onlyEnclosing
                [ { boxID := 0, roi := ⟨0, 0, 100, 100⟩, lidarPoints := [], kptMatches := [] },
                  { boxID := 1, roi := ⟨50, 0, 100, 100⟩, lidarPoints := [],
                    kptMatches := [] } ]
                (1 / 10) ⟨truncToInt p.x, truncToInt p.y⟩ k) }) :=
  ⟨by norm_num, by norm_num,
    (clusterLidarWithROI_exclusive _ _ (1 / 10) _ (by norm_num) (by norm_num)).1⟩

/-! ### Truncation and the shrunk region -/

theorem truncToInt_le_of_nonneg {q : ℚ} (h : 0 ≤ q) : (truncToInt q : ℚ) ≤ q := by
  simp only [truncToInt, h, if_true]
  exact Int.floor_le q

theorem truncToInt_ge_of_neg {q : ℚ} (h : q < 0) : q ≤ (truncToInt q : ℚ) := by
  have hn : ¬ (0 ≤ q) := not_le.mpr h
  simp only [truncToInt, hn, if_false, Int.cast_neg]
  have := Int.floor_le (-q)
  linarith

theorem sub_one_lt_truncToInt (q : ℚ) : q - 1 < (truncToInt q : ℚ) := by
  by_cases h : 0 ≤ q
  · simp only [truncToInt, h, if_true]
    have := Int.lt_floor_add_one q
    linarith
  · have := truncToInt_ge_of_neg (not_le.mp h)
    linarith

theorem truncToInt_lt_add_one (q : ℚ) : (truncToInt q : ℚ) < q + 1 := by
  by_cases h : 0 ≤ q
  · have := truncToInt_le_of_nonneg h
    linarith
  · simp only [truncToInt, h, if_false, Int.cast_neg]
    have := Int.lt_floor_add_one (-q)
    linarith

theorem truncToInt_nonpos_of_nonpos {q : ℚ} (h : q ≤ 0) : truncToInt q ≤ 0 := by
  have h1 := truncToInt_lt_add_one q
  have h2 : (truncToInt q : ℚ) < 1 := by linarith
  have h3 : truncToInt q < 1 := by exact_mod_cast h2
  omega

theorem truncToInt_mono {a b : ℚ} (h : a ≤ b) : truncToInt a ≤ truncToInt b := by
  by_cases ha : 0 ≤ a
  · have hb : 0 ≤ b := le_trans ha h
    simp only [truncToInt, ha, hb, if_true]
    exact Int.floor_mono h
  · by_cases hb : 0 ≤ b
    · have h1 : truncToInt a ≤ 0 := truncToInt_nonpos_of_nonpos (le_of_lt (not_le.mp ha))
      have h2 : 0 ≤ truncToInt b := by
        simp only [truncToInt, hb, if_true]
        exact Int.floor_nonneg.mpr hb
      omega
    · simp only [truncToInt, ha, hb, if_false]
      have : ⌊-b⌋ ≤ ⌊-a⌋ := Int.floor_mono (by linarith)
      omega

/-- One axis of the shrunk region: growing the shrink factor never moves the near edge
outward and moves the far edge outward by at most one pixel. -/
theorem shrink_axis (x0 w p : Int) (s1 s2 : ℚ) (h12 : s1 ≤ s2) (h2 : s2 < 1)
    (hlo : truncToInt (x0 + s2 * w / 2) ≤ p)
    (hhi : p < truncToInt (x0 + s2 * w / 2) + truncToInt (w * (1 - s2))) :
    truncToInt (x0 + s1 * w / 2) ≤ p ∧
      p < truncToInt (x0 + s1 * w / 2) + truncToInt (w * (1 - s1)) + 1 := by
  have hW2 : 0 < truncToInt ((w : ℚ) * (1 - s2)) := by omega
  have hv2 : 0 < (w : ℚ) * (1 - s2) := by
    by_contra hneg
    have := truncToInt_nonpos_of_nonpos (not_lt.mp hneg)
    omega
  have hs2 : 0 < 1 - s2 := by linarith
  have hw : 0 < (w : ℚ) := by
    by_contra hneg
    have : (w : ℚ) * (1 - s2) ≤ 0 := mul_nonpos_of_nonpos_of_nonneg (not_lt.mp hneg) hs2.le
    linarith
  have ha : s1 * (w : ℚ) ≤ s2 * w := mul_le_mul_of_nonneg_right h12 hw.le
  have hu : (x0 : ℚ) + s1 * w / 2 ≤ x0 + s2 * w / 2 := by linarith
  have hv1 : 0 ≤ (w : ℚ) * (1 - s1) := mul_nonneg hw.le (by linarith)
  refine ⟨le_trans (truncToInt_mono hu) hlo, ?_⟩
  have hW2le := truncToInt_le_of_nonneg hv2.le
  have hW1gt := sub_one_lt_truncToInt ((w : ℚ) * (1 - s1))
  have hsum : (x0 : ℚ) + s2 * w / 2 + w * (1 - s2) ≤ x0 + s1 * w / 2 + w * (1 - s1) := by
    nlinarith
  have key : ((truncToInt (x0 + s2 * w / 2) + truncToInt ((w : ℚ) * (1 - s2)) : Int) : ℚ) <
      ((truncToInt (x0 + s1 * w / 2) + truncToInt ((w : ℚ) * (1 - s1)) + 2 : Int) : ℚ) := by
    push_cast
    by_cases hu2 : 0 ≤ (x0 : ℚ) + s2 * w / 2
    · have hX2 := truncToInt_le_of_nonneg hu2
      have hX1 := sub_one_lt_truncToInt ((x0 : ℚ) + s1 * w / 2)
      linarith
    · have hu1 : (x0 : ℚ) + s1 * w / 2 < 0 := lt_of_le_of_lt hu (not_le.mp hu2)
      have hX2 := truncToInt_lt_add_one ((x0 : ℚ) + s2 * w / 2)
      have hX1 := truncToInt_ge_of_neg hu1
      linarith
  have key2 : truncToInt (x0 + s2 * w / 2) + truncToInt ((w : ℚ) * (1 - s2)) <
      truncToInt (x0 + s1 * w / 2) + truncToInt ((w : ℚ) * (1 - s1)) + 2 := by
    exact_mod_cast key
  omega

theorem contains_iff (r : Rect) (pt : Point) :
    r.contains pt = true ↔
      (r.x ≤ pt.x ∧ pt.x < r.x + r.width ∧ r.y ≤ pt.y ∧ pt.y < r.y + r.height) := by
  simp [Rect.contains]

/-- C10 (counterexample). Box `(0, 0, 8, 8)` and pixel `(6, 3)`: the region shrunk by `1/4`
is `(1, 1, 6, 6)` and contains the pixel, the region shrunk by the smaller factor `3/16` is
`(0, 0, 6, 6)` and does not. -/
theorem shrinkBox_not_monotone :
    (0 : ℚ) ≤ 3 / 16 ∧ (3 / 16 : ℚ) ≤ 1 / 4 ∧ (1 / 4 : ℚ) < 1 ∧
    shrinkBox ⟨0, 0, 8, 8⟩ (1 / 4) = ⟨1, 1, 6, 6⟩ ∧
    shrinkBox ⟨0, 0, 8, 8⟩ (3 / 16) = ⟨0, 0, 6, 6⟩ ∧
    (shrinkBox ⟨0, 0, 8, 8⟩ (1 / 4)).contains ⟨6, 3⟩ = true ∧
    (shrinkBox ⟨0, 0, 8, 8⟩ (3 / 16)).contains ⟨6, 3⟩ = false := by
  have e1 : shrinkBox ⟨0, 0, 8, 8⟩ (1 / 4) = ⟨1, 1, 6, 6⟩ := by
    norm_num [shrinkBox, truncToInt]
  have e2 : shrinkBox ⟨0, 0, 8, 8⟩ (3 / 16) = ⟨0, 0, 6, 6⟩ := by
    norm_num [shrinkBox, truncToInt]
  refine ⟨by norm_num, by norm_num, by norm_num, e1, e2, ?_, ?_⟩
  · rw [e1]; decide
  · rw [e2]; decide

/-- C10 (amended). For every box, every pixel and shrink factors `0 ≤ s1 ≤ s2 < 1`: a pixel
contained in the region shrunk by `s2` lies at or after the left and top edges of the region
shrunk by `s1`, and before its right and bottom edges moved outward by one pixel. -/
theorem shrinkBox_monotone_upto_one (roi : Rect) (pt : Point) (s1 s2 : ℚ)
    (_h0 : 0 ≤ s1) (h12 : s1 ≤ s2) (h2 : s2 < 1)
    (hc : (shrinkBox roi s2).contains pt = true) :
    (shrinkBox roi s1).x ≤ pt.x ∧
      pt.x < (shrinkBox roi s1).x + (shrinkBox roi s1).width + 1 ∧
      (shrinkBox roi s1).y ≤ pt.y ∧
      pt.y < (shrinkBox roi s1).y + (shrinkBox roi s1).height + 1 := by
  rw [contains_iff] at hc
  obtain ⟨hx1, hx2, hy1, hy2⟩ := hc
  have hx := shrink_axis roi.x roi.width pt.x s1 s2 h12 h2 hx1 hx2
  have hy := shrink_axis roi.y roi.height pt.y s1 s2 h12 h2 hy1 hy2
  exact ⟨hx.1, hx.2, hy.1, hy.2⟩

/-- C10 (amended), at a concrete input: box `(0, 0, 8, 8)`, pixel `(6, 3)`, factors `3/16`
and `1/4`. -/
theorem shrinkBox_monotone_upto_one_witness :
    (0 : ℚ) ≤ 3 / 16 ∧ (3 / 16 : ℚ) ≤ 1 / 4 ∧ (1 / 4 : ℚ) < 1 ∧
    (shrinkBox ⟨0, 0, 8, 8⟩ (1 / 4)).contains ⟨6, 3⟩ = true ∧
    ((shrinkBox ⟨0, 0, 8, 8⟩ (3 / 16)).x ≤ (6 : Int) ∧
      (6 : Int) < (shrinkBox ⟨0, 0, 8, 8⟩ (3 / 16)).x +
        (shrinkBox ⟨0, 0, 8, 8⟩ (3 / 16)).width + 1 ∧
      (shrinkBox ⟨0, 0, 8, 8⟩ (3 / 16)).y ≤ (3 : Int) ∧
      (3 : Int) < (shrinkBox ⟨0, 0, 8, 8⟩ (3 / 16)).y +
        (shrinkBox ⟨0, 0, 8, 8⟩ (3 / 16)).height + 1) :=
  have hc : (shrinkBox ⟨0, 0, 8, 8⟩ (1 / 4)).contains ⟨6, 3⟩ = true := by
    norm_num [shrinkBox, truncToInt, Rect.contains]
  ⟨by norm_num, by norm_num, by norm_num, hc,
    shrinkBox_monotone_upto_one ⟨0, 0, 8, 8⟩ ⟨6, 3⟩ (3 / 16) (1 / 4)
      (by norm_num) (by norm_num) (by norm_num) hc⟩

/-! ### matchBoundingBoxes -/

theorem voteMatrix_concat (ms : List DMatch) (m : DMatch) (prevFrame currFrame : DataFrame) :
    voteMatrix (ms ++ [m]) prevFrame currFrame =
      voteLoop prevFrame currFrame ms (fun _ _ => 0) := by
  unfold voteMatrix
  split
  · next h => simp at h
  · rw [List.dropLast_concat]

theorem voteLoop_isSome (prevFrame currFrame : DataFrame) (ms : List DMatch) :
    ∀ t : VoteMatrix,
      (∀ m ∈ ms, m.queryIdx < prevFrame.keypoints.length ∧
        m.trainIdx < currFrame.keypoints.length) →
      ∃ t2, voteLoop prevFrame currFrame ms t = some t2 := by
  induction ms with
  | nil => intro t _; exact ⟨t, rfl⟩
  | cons m ms ih =>
    intro t h
    obtain ⟨hq, ht⟩ := h m (by simp)
    have e1 : prevFrame.keypoints[m.queryIdx]? = some (prevFrame.keypoints[m.queryIdx]) :=
      List.getElem?_eq_getElem hq
    have e2 : currFrame.keypoints[m.trainIdx]? = some (currFrame.keypoints[m.trainIdx]) :=
      List.getElem?_eq_getElem ht
    simp only [voteLoop, voteStep, e1, e2]
    exact ih _ (fun m2 hm2 => h m2 (by simp [hm2]))

theorem mapAssign_append (bb : BestMatches) (k v : Int) (h : ∀ kv ∈ bb, kv.1 < k) :
    mapAssign bb k v = bb ++ [(k, v)] := by
  induction bb with
  | nil => rfl
  | cons kv rest ih =>
    obtain ⟨k0, v0⟩ := kv
    have h0 : k0 < k := h (k0, v0) (by simp)
    have h1 : ¬ k < k0 := by omega
    have h2 : ¬ k = k0 := by omega
    simp only [mapAssign, h1, h2, if_false, List.cons_append]
    rw [ih (fun kv hkv => h kv (by simp [hkv]))]

theorem bestMatchesLoop_range' (t : VoteMatrix) (R C : Nat) (mem : Nat → Nat) (n : Nat) :
    ∀ (a : Nat) (bb : BestMatches), (∀ kv ∈ bb, kv.1 < (a : Int)) →
      bestMatchesLoop t R C mem (List.range' a n) bb =
        bb ++ (List.range' a n).map (fun (i : Nat) => ((i : Int), (selectBest t R C mem i : Int))) := by
  induction n with
  | zero => intro a bb _; simp [bestMatchesLoop]
  | succ n ih =>
    intro a bb h
    rw [List.range'_succ, bestMatchesLoop, mapAssign_append bb _ _ h, ih (a + 1)]
    · simp
    · intro kv hkv
      rcases List.mem_append.1 hkv with h1 | h1
      · have := h kv h1
        push_cast
        omega
      · simp at h1
        rw [h1]
        push_cast
        omega

theorem bestMatchesLoop_range (t : VoteMatrix) (R C : Nat) (mem : Nat → Nat) (n : Nat) :
    bestMatchesLoop t R C mem (List.range n) [] =
      (List.range n).map (fun (i : Nat) => ((i : Int), (selectBest t R C mem i : Int))) := by
  rw [List.range_eq_range', bestMatchesLoop_range' t R C mem n 0 [] (by simp)]
  simp

theorem mapFind_map_range (f : Nat → Int) (n i : Nat) (hi : i < n) :
    mapFind ((List.range n).map (fun (i : Nat) => ((i : Int), f i))) (i : Int) = some (f i) := by
  induction n with
  | zero => omega
  | succ n ih =>
    rw [List.range_succ, List.map_append, mapFind, List.find?_append]
    by_cases h : i < n
    · have := ih h
      rw [mapFind] at this
      cases hf : List.find? (fun kv => decide (kv.1 = (i : Int)))
          ((List.range n).map (fun (i : Nat) => ((i : Int), f i))) with
      | none => rw [hf] at this; simp at this
      | some kv => rw [hf] at this; simpa using this
    · have hin : i = n := by omega
      subst hin
      have hnone : List.find? (fun kv => decide (kv.1 = (i : Int)))
          ((List.range i).map (fun (i : Nat) => ((i : Int), f i))) = none := by
        rw [List.find?_eq_none]
        intro kv hkv
        simp only [List.mem_map, List.mem_range] at hkv
        obtain ⟨j, hj, rfl⟩ := hkv
        simp
        omega
      rw [hnone]
      simp
theorem matchBoundingBoxes_eq (dmatches : List DMatch) (prevFrame currFrame : DataFrame)
    (mem : Nat → Nat) :
    matchBoundingBoxes dmatches [] prevFrame currFrame mem =
      (voteMatrix dmatches prevFrame currFrame).map (fun t =>
        (List.range prevFrame.boundingBoxes.length).map (fun (i : Nat) =>
          ((i : Int), (selectBest t prevFrame.boundingBoxes.length
            currFrame.boundingBoxes.length mem i : Int)))) := by
  unfold matchBoundingBoxes
  cases voteMatrix dmatches prevFrame currFrame with
  | none => rfl
  | some t => simp [bestMatchesLoop_range]

/-- C2 (failing input). One previous box, two current boxes, and two matches whose
previous keypoint lies in the previous box and whose current keypoint lies in current box 1
only.  The examined match gives `votes[0][0] = 0` and `votes[0][1] = 1`; the selection loop
runs over the columns `0 .. bboxPrevSize - 1 = 0` only and maps previous box 0 to current
box 0, whose count is not the maximum of the row. -/
theorem matchBoundingBoxes_skips_columns :
    voteCount frameOneBox frameTwoBoxes [⟨0, 0⟩] 0 0 = 0 ∧
    voteCount frameOneBox frameTwoBoxes [⟨0, 0⟩] 0 1 = 1 ∧
    (∃ ptBBox : VoteMatrix,
      voteMatrix [⟨0, 0⟩, ⟨0, 0⟩] frameOneBox frameTwoBoxes = some ptBBox ∧ ptBBox 0 0 = 0 ∧ ptBBox 0 1 = 1) ∧
    ∀ mem : Nat → Nat,
      matchBoundingBoxes [⟨0, 0⟩, ⟨0, 0⟩] [] frameOneBox frameTwoBoxes mem =
        some [(0, 0)] := by
  refine ⟨?_, ?_, ⟨addVotes (fun _ _ => 0) [0] [1], ?_, ?_, ?_⟩, ?_⟩
  · norm_num [voteCount, frameOneBox, frameTwoBoxes, Point2f.truncate, truncToInt,
      Rect.contains]
  · norm_num [voteCount, frameOneBox, frameTwoBoxes, Point2f.truncate, truncToInt,
      Rect.contains]
  · norm_num [voteMatrix, frameOneBox, frameTwoBoxes, voteLoop, voteStep, boxIds,
      boxIdsFrom, Point2f.truncate, truncToInt, Rect.contains]
  · simp [addVotes, incrCell]
  · simp [addVotes, incrCell]
  · intro mem
    norm_num [matchBoundingBoxes, frameOneBox, frameTwoBoxes, voteMatrix, voteLoop, voteStep,
      boxIds, boxIdsFrom, Point2f.truncate, truncToInt, Rect.contains, bestMatchesLoop,
      selectBest, selectLoop, readCell, addVotes, incrCell, mapAssign, List.range_succ]

/-- C12. The last match of the input is never examined: with the same frames, the matcher
gives the same result on `ms ++ [m]` and on `ms ++ [m']`, and this result is the selection
made from the votes of exactly the matches `ms`. -/
theorem matchBoundingBoxes_ignores_last (ms : List DMatch) (m m' : DMatch)
    (bbBestMatches : BestMatches) (prevFrame currFrame : DataFrame) (mem : Nat → Nat) :
    matchBoundingBoxes (ms ++ [m]) bbBestMatches prevFrame currFrame mem =
      matchBoundingBoxes (ms ++ [m']) bbBestMatches prevFrame currFrame mem ∧
    matchBoundingBoxes (ms ++ [m]) bbBestMatches prevFrame currFrame mem =
      (voteLoop prevFrame currFrame ms (fun _ _ => 0)).map (fun ptBBox =>
        bestMatchesLoop ptBBox prevFrame.boundingBoxes.length
          currFrame.boundingBoxes.length mem (List.range prevFrame.boundingBoxes.length)
          bbBestMatches) := by
  unfold matchBoundingBoxes
  rw [voteMatrix_concat, voteMatrix_concat]
  refine ⟨rfl, ?_⟩
  cases voteLoop prevFrame currFrame ms (fun _ _ => 0) <;> rfl

theorem matchExample_result (mem : Nat → Nat) :
    matchBoundingBoxes [⟨0, 0⟩, ⟨0, 0⟩] [] frameTwoBoxes frameOneBox mem =
        some [(0, 1), (1, if mem 0 > 1 then 1 else 0)] := by
  by_cases h : mem 0 > 1
  · have h2 : 1 < mem 0 := h
    norm_num [matchBoundingBoxes, frameOneBox, frameTwoBoxes, voteMatrix, voteLoop, voteStep,
      boxIds, boxIdsFrom, Point2f.truncate, truncToInt, Rect.contains, bestMatchesLoop,
      selectBest, selectLoop, readCell, addVotes, incrCell, mapAssign, List.range_succ, h2]
  · have h2 : ¬ 1 < mem 0 := h
    norm_num [matchBoundingBoxes, frameOneBox, frameTwoBoxes, voteMatrix, voteLoop, voteStep,
      boxIds, boxIdsFrom, Point2f.truncate, truncToInt, Rect.contains, bestMatchesLoop,
      selectBest, selectLoop, readCell, addVotes, incrCell, mapAssign, List.range_succ, h2]

/-- C13 (failing input). Two previous boxes, one current box, and two matches whose
previous keypoint lies in previous box 1 and whose current keypoint lies in the current box.
Previous box 0 has no vote (`votes[0][0] = 0`), yet it is mapped to 1: the selection loop
reads `ptBBox[0][1]`, past the end of row 0, where the layout puts the cell `ptBBox[1][0]`
holding one vote. -/
theorem matchBoundingBoxes_zero_votes_not_zero :
    (∃ ptBBox : VoteMatrix,
      voteMatrix [⟨0, 0⟩, ⟨0, 0⟩] frameTwoBoxes frameOneBox = some ptBBox ∧ ptBBox 0 0 = 0 ∧ ptBBox 1 0 = 1) ∧
    ∀ mem : Nat → Nat, ∃ bb : BestMatches,
      matchBoundingBoxes [⟨0, 0⟩, ⟨0, 0⟩] [] frameTwoBoxes frameOneBox mem =
        some bb ∧ mapFind bb 0 = some 1 := by
  refine ⟨⟨addVotes (fun _ _ => 0) [1] [0], ?_, ?_, ?_⟩, ?_⟩
  · norm_num [voteMatrix, frameOneBox, frameTwoBoxes, voteLoop, voteStep, boxIds,
      boxIdsFrom, Point2f.truncate, truncToInt, Rect.contains]
  · simp [addVotes, incrCell]
  · simp [addVotes, incrCell]
  · intro mem
    exact ⟨_, matchExample_result mem, by simp [mapFind]⟩

/-- C14. From an empty map, a non-empty match list whose examined matches index existing
keypoints, and a previous frame of `n` boxes: `matchBoundingBoxes` returns a map whose keys
are exactly `0, ..., n - 1`, each once, so every previous box has exactly one value and
there is no other key. -/
theorem matchBoundingBoxes_keys (dmatches : List DMatch) (prevFrame currFrame : DataFrame)
    (mem : Nat → Nat) (hne : dmatches ≠ [])
    (hidx : ∀ m ∈ dmatches.dropLast, m.queryIdx < prevFrame.keypoints.length ∧
      m.trainIdx < currFrame.keypoints.length) :
    ∃ bb : BestMatches,
      matchBoundingBoxes dmatches [] prevFrame currFrame mem = some bb ∧
      bb.map Prod.fst =
        (List.range prevFrame.boundingBoxes.length).map (fun (i : Nat) => (i : Int)) ∧
      (∀ i : Nat, i < prevFrame.boundingBoxes.length → ∃ v, mapFind bb (i : Int) = some v) ∧
      (∀ k : Int, mapFind bb k ≠ none →
        0 ≤ k ∧ k < (prevFrame.boundingBoxes.length : Int)) := by
  obtain ⟨t, ht⟩ := voteLoop_isSome prevFrame currFrame dmatches.dropLast (fun _ _ => 0) hidx
  have hvm : voteMatrix dmatches prevFrame currFrame = some t := by
    unfold voteMatrix
    cases dmatches with
    | nil => exact absurd rfl hne
    | cons a l => exact ht
  refine ⟨_, by rw [matchBoundingBoxes_eq, hvm]; rfl, ?_, ?_, ?_⟩
  · simp [List.map_map, Function.comp_def]
  · intro i hi
    exact ⟨_, mapFind_map_range _ _ i hi⟩
  · intro k hk
    unfold mapFind at hk
    cases hf : List.find? (fun kv => decide (kv.1 = k))
        ((List.range prevFrame.boundingBoxes.length).map (fun (i : Nat) =>
          ((i : Int), (selectBest t prevFrame.boundingBoxes.length
            currFrame.boundingBoxes.length mem i : Int)))) with
    | none => rw [hf] at hk; exact absurd rfl hk
    | some kv =>
      have hmem := List.mem_of_find?_eq_some hf
      have hkey := List.find?_some hf
      simp only [List.mem_map, List.mem_range] at hmem
      obtain ⟨j, hj, rfl⟩ := hmem
      simp only [decide_eq_true_eq] at hkey
      subst hkey
      exact ⟨by simp, by exact_mod_cast hj⟩

/-- C14 at a concrete input: two matches between frames of one and two boxes. -/
theorem matchBoundingBoxes_keys_witness :
    ∃ bb : BestMatches,
      matchBoundingBoxes [⟨0, 0⟩, ⟨0, 0⟩] [] frameOneBox frameTwoBoxes
        (fun _ => 0) = some bb ∧
      bb.map Prod.fst =
        (List.range frameOneBox.boundingBoxes.length).map (fun (i : Nat) => (i : Int)) ∧
      (∀ i : Nat, i < frameOneBox.boundingBoxes.length →
        ∃ v, mapFind bb (i : Int) = some v) ∧
      (∀ k : Int, mapFind bb k ≠ none →
        0 ≤ k ∧ k < (frameOneBox.boundingBoxes.length : Int)) :=
  matchBoundingBoxes_keys [⟨0, 0⟩, ⟨0, 0⟩] frameOneBox frameTwoBoxes
    (fun _ => 0) (by simp) (by simp [frameOneBox, frameTwoBoxes])

/-- C17 (failing input). Two previous boxes, one current box, and two matches whose
previous keypoint lies in previous box 1 and whose current keypoint lies in the current box.
The selection loop of row 0 runs over the columns `0` and `1`; column 1 is outside the one
column of `ptBBox`, and the value stored for previous box 0 is 1, which is not an index into
the one-element box sequence of the current frame. -/
theorem matchBoundingBoxes_out_of_bounds :
    (∃ j ∈ List.range frameTwoBoxes.boundingBoxes.length,
      ¬ j < frameOneBox.boundingBoxes.length) ∧
    ∀ mem : Nat → Nat, ∃ bb : BestMatches,
      matchBoundingBoxes [⟨0, 0⟩, ⟨0, 0⟩] [] frameTwoBoxes frameOneBox mem =
        some bb ∧
      ∃ v : Int, mapFind bb 0 = some v ∧
        ¬ v < ((frameOneBox.boundingBoxes.length : Nat) : Int) := by
  refine ⟨⟨1, by simp [frameTwoBoxes], by simp [frameOneBox]⟩, ?_⟩
  intro mem
  exact ⟨_, matchExample_result mem, 1, by simp [mapFind], by simp [frameOneBox]⟩

/-! ### computeTTCCamera -/

theorem l2norm_axis (x : ℚ) : l2norm ⟨x, 0⟩ = |x| := by
  simp [l2norm, Rat.sqrt_eq]

theorem ratiosOuter_cons_of_eq {norm : Point2f → ℚ} {kptsPrev kptsCurr : List KeyPoint}
    {inner : List DMatch} {c p : KeyPoint} {acc d : List ℚ}
    (hi : ratiosInner norm kptsPrev kptsCurr c p inner acc = some d)
    (m : DMatch) (ms : List DMatch)
    (hc : kptsCurr[m.trainIdx]? = some c) (hp : kptsPrev[m.queryIdx]? = some p) :
    ratiosOuter norm kptsPrev kptsCurr inner (m :: ms) acc =
      ratiosOuter norm kptsPrev kptsCurr inner ms d := by
  rw [ratiosOuter, hc, hp]
  simp only [hi]

theorem camExample_inner0 :
    ratiosInner l2norm
      [⟨⟨0, 0⟩⟩, ⟨⟨100, 0⟩⟩, ⟨⟨200, 0⟩⟩, ⟨⟨300, 0⟩⟩]
      [⟨⟨0, 0⟩⟩, ⟨⟨100, 0⟩⟩, ⟨⟨210, 0⟩⟩, ⟨⟨310, 0⟩⟩] ⟨⟨0, 0⟩⟩ ⟨⟨0, 0⟩⟩
      [⟨1, 1⟩, ⟨2, 2⟩, ⟨3, 3⟩] []
      = some [1, 21 / 20, 31 / 30] := by
  norm_num [ratiosInner, Point2f.sub, l2norm_axis, epsilon, minDist]

theorem camExample_inner1 :
    ratiosInner l2norm
      [⟨⟨0, 0⟩⟩, ⟨⟨100, 0⟩⟩, ⟨⟨200, 0⟩⟩, ⟨⟨300, 0⟩⟩]
      [⟨⟨0, 0⟩⟩, ⟨⟨100, 0⟩⟩, ⟨⟨210, 0⟩⟩, ⟨⟨310, 0⟩⟩] ⟨⟨100, 0⟩⟩ ⟨⟨100, 0⟩⟩
      [⟨1, 1⟩, ⟨2, 2⟩, ⟨3, 3⟩] [1, 21 / 20, 31 / 30]
      = some [1, 21 / 20, 31 / 30, 11 / 10, 21 / 20] := by
  norm_num [ratiosInner, Point2f.sub, l2norm_axis, epsilon, minDist]

theorem camExample_inner2 :
    ratiosInner l2norm
      [⟨⟨0, 0⟩⟩, ⟨⟨100, 0⟩⟩, ⟨⟨200, 0⟩⟩, ⟨⟨300, 0⟩⟩]
      [⟨⟨0, 0⟩⟩, ⟨⟨100, 0⟩⟩, ⟨⟨210, 0⟩⟩, ⟨⟨310, 0⟩⟩] ⟨⟨210, 0⟩⟩ ⟨⟨200, 0⟩⟩
      [⟨1, 1⟩, ⟨2, 2⟩, ⟨3, 3⟩] [1, 21 / 20, 31 / 30, 11 / 10, 21 / 20]
      = some [1, 21 / 20, 31 / 30, 11 / 10, 21 / 20, 11 / 10, 1] := by
  norm_num [ratiosInner, Point2f.sub, l2norm_axis, epsilon, minDist]

theorem camExample_distRatios :
    distRatios l2norm
      [⟨⟨0, 0⟩⟩, ⟨⟨100, 0⟩⟩, ⟨⟨200, 0⟩⟩, ⟨⟨300, 0⟩⟩]
      [⟨⟨0, 0⟩⟩, ⟨⟨100, 0⟩⟩, ⟨⟨210, 0⟩⟩, ⟨⟨310, 0⟩⟩]
      [⟨0, 0⟩, ⟨1, 1⟩, ⟨2, 2⟩, ⟨3, 3⟩]
      = some [1, 21 / 20, 31 / 30, 11 / 10, 21 / 20, 11 / 10, 1] :=
  (ratiosOuter_cons_of_eq camExample_inner0 ⟨0, 0⟩ [⟨1, 1⟩, ⟨2, 2⟩] rfl rfl).trans
    ((ratiosOuter_cons_of_eq camExample_inner1 ⟨1, 1⟩ [⟨2, 2⟩] rfl rfl).trans
      ((ratiosOuter_cons_of_eq camExample_inner2 ⟨2, 2⟩ [] rfl rfl).trans rfl))

theorem camExample_pair01 :
    pairRatio l2norm
      [⟨⟨0, 0⟩⟩, ⟨⟨100, 0⟩⟩, ⟨⟨200, 0⟩⟩, ⟨⟨300, 0⟩⟩]
      [⟨⟨0, 0⟩⟩, ⟨⟨100, 0⟩⟩, ⟨⟨210, 0⟩⟩, ⟨⟨310, 0⟩⟩] ⟨0, 0⟩ ⟨1, 1⟩ = some 1 := by
  norm_num [pairRatio, Point2f.sub, l2norm_axis, epsilon, minDist]

theorem camExample_pair02 :
    pairRatio l2norm
      [⟨⟨0, 0⟩⟩, ⟨⟨100, 0⟩⟩, ⟨⟨200, 0⟩⟩, ⟨⟨300, 0⟩⟩]
      [⟨⟨0, 0⟩⟩, ⟨⟨100, 0⟩⟩, ⟨⟨210, 0⟩⟩, ⟨⟨310, 0⟩⟩] ⟨0, 0⟩ ⟨2, 2⟩ = some (21 / 20) := by
  norm_num [pairRatio, Point2f.sub, l2norm_axis, epsilon, minDist]

theorem camExample_pair03 :
    pairRatio l2norm
      [⟨⟨0, 0⟩⟩, ⟨⟨100, 0⟩⟩, ⟨⟨200, 0⟩⟩, ⟨⟨300, 0⟩⟩]
      [⟨⟨0, 0⟩⟩, ⟨⟨100, 0⟩⟩, ⟨⟨210, 0⟩⟩, ⟨⟨310, 0⟩⟩] ⟨0, 0⟩ ⟨3, 3⟩ = some (31 / 30) := by
  norm_num [pairRatio, Point2f.sub, l2norm_axis, epsilon, minDist]

theorem camExample_pair12 :
    pairRatio l2norm
      [⟨⟨0, 0⟩⟩, ⟨⟨100, 0⟩⟩, ⟨⟨200, 0⟩⟩, ⟨⟨300, 0⟩⟩]
      [⟨⟨0, 0⟩⟩, ⟨⟨100, 0⟩⟩, ⟨⟨210, 0⟩⟩, ⟨⟨310, 0⟩⟩] ⟨1, 1⟩ ⟨2, 2⟩ = some (11 / 10) := by
  norm_num [pairRatio, Point2f.sub, l2norm_axis, epsilon, minDist]

theorem camExample_pair13 :
    pairRatio l2norm
      [⟨⟨0, 0⟩⟩, ⟨⟨100, 0⟩⟩, ⟨⟨200, 0⟩⟩, ⟨⟨300, 0⟩⟩]
      [⟨⟨0, 0⟩⟩, ⟨⟨100, 0⟩⟩, ⟨⟨210, 0⟩⟩, ⟨⟨310, 0⟩⟩] ⟨1, 1⟩ ⟨3, 3⟩ = some (21 / 20) := by
  norm_num [pairRatio, Point2f.sub, l2norm_axis, epsilon, minDist]

theorem camExample_pair23 :
    pairRatio l2norm
      [⟨⟨0, 0⟩⟩, ⟨⟨100, 0⟩⟩, ⟨⟨200, 0⟩⟩, ⟨⟨300, 0⟩⟩]
      [⟨⟨0, 0⟩⟩, ⟨⟨100, 0⟩⟩, ⟨⟨210, 0⟩⟩, ⟨⟨310, 0⟩⟩] ⟨2, 2⟩ ⟨3, 3⟩ = some 1 := by
  norm_num [pairRatio, Point2f.sub, l2norm_axis, epsilon, minDist]

theorem camExample_unordered :
    unorderedPairRatios l2norm
      [⟨⟨0, 0⟩⟩, ⟨⟨100, 0⟩⟩, ⟨⟨200, 0⟩⟩, ⟨⟨300, 0⟩⟩]
      [⟨⟨0, 0⟩⟩, ⟨⟨100, 0⟩⟩, ⟨⟨210, 0⟩⟩, ⟨⟨310, 0⟩⟩]
      [⟨0, 0⟩, ⟨1, 1⟩, ⟨2, 2⟩, ⟨3, 3⟩]
      = [1, 21 / 20, 31 / 30, 11 / 10, 21 / 20, 1] := by
  rw [unorderedPairRatios, unorderedPairRatios, unorderedPairRatios, unorderedPairRatios,
    unorderedPairRatios,
    List.filterMap_cons_some camExample_pair01, List.filterMap_cons_some camExample_pair02,
    List.filterMap_cons_some camExample_pair03, List.filterMap_cons_some camExample_pair12,
    List.filterMap_cons_some camExample_pair13, List.filterMap_cons_some camExample_pair23]
  rfl

theorem camExample_ttc7 :
    ttcFromDistRatio [1, 21 / 20, 31 / 30, 11 / 10, 21 / 20, 11 / 10, 1] 10 = F64.fin 2 := by
  norm_num [ttcFromDistRatio, List.insertionSort, List.orderedInsert, F64.div, F64.neg,
    F64.sub]

theorem camExample_ttc6 :
    ttcFromDistRatio [1, 21 / 20, 31 / 30, 11 / 10, 21 / 20, 1] 10 = F64.fin (12 / 5) := by
  norm_num [ttcFromDistRatio, List.insertionSort, List.orderedInsert, F64.div, F64.neg,
    F64.sub]

/-- C3 (failing input). Four matches `(i, i)` between the previous keypoints at
`x = 0, 100, 200, 300` and the current keypoints at `x = 0, 100, 210, 310` (all `y = 0`),
frame rate 10.  The six unordered pairs give six ratios, median `25/24`, TTC `12/5`.  The
loops of `computeTTCCamera` visit the pair of matches 1 and 2 twice (as `(1, 2)` and as
`(2, 1)`): seven ratios, median `21/20`, TTC `2`. -/
theorem computeTTCCamera_counts_pair_twice :
    distRatios l2norm
      [⟨⟨0, 0⟩⟩, ⟨⟨100, 0⟩⟩, ⟨⟨200, 0⟩⟩, ⟨⟨300, 0⟩⟩]
      [⟨⟨0, 0⟩⟩, ⟨⟨100, 0⟩⟩, ⟨⟨210, 0⟩⟩, ⟨⟨310, 0⟩⟩]
      [⟨0, 0⟩, ⟨1, 1⟩, ⟨2, 2⟩, ⟨3, 3⟩]
      = some [1, 21 / 20, 31 / 30, 11 / 10, 21 / 20, 11 / 10, 1] ∧
    unorderedPairRatios l2norm
      [⟨⟨0, 0⟩⟩, ⟨⟨100, 0⟩⟩, ⟨⟨200, 0⟩⟩, ⟨⟨300, 0⟩⟩]
      [⟨⟨0, 0⟩⟩, ⟨⟨100, 0⟩⟩, ⟨⟨210, 0⟩⟩, ⟨⟨310, 0⟩⟩]
      [⟨0, 0⟩, ⟨1, 1⟩, ⟨2, 2⟩, ⟨3, 3⟩]
      = [1, 21 / 20, 31 / 30, 11 / 10, 21 / 20, 1] ∧
    computeTTCCamera l2norm
      [⟨⟨0, 0⟩⟩, ⟨⟨100, 0⟩⟩, ⟨⟨200, 0⟩⟩, ⟨⟨300, 0⟩⟩]
      [⟨⟨0, 0⟩⟩, ⟨⟨100, 0⟩⟩, ⟨⟨210, 0⟩⟩, ⟨⟨310, 0⟩⟩]
      [⟨0, 0⟩, ⟨1, 1⟩, ⟨2, 2⟩, ⟨3, 3⟩] 10 = some (F64.fin 2) ∧
    ttcFromDistRatio [1, 21 / 20, 31 / 30, 11 / 10, 21 / 20, 1] 10 = F64.fin (12 / 5) := by
  refine ⟨camExample_distRatios, camExample_unordered, ?_, camExample_ttc6⟩
  rw [computeTTCCamera, camExample_distRatios]
  exact congrArg some camExample_ttc7

theorem medDistRatio_eq_median (distRatio : List ℚ) :
    (if distRatio.length % 2 = 0 then
        ((distRatio.insertionSort (· ≤ ·)).getD (distRatio.length / 2 - 1) 0 +
          (distRatio.insertionSort (· ≤ ·)).getD (distRatio.length / 2) 0) / 2
      else (distRatio.insertionSort (· ≤ ·)).getD (distRatio.length / 2) 0) =
      median distRatio := by
  unfold median
  by_cases h : distRatio.length % 2 = 0
  · have h1 : ¬ distRatio.length % 2 = 1 := by omega
    rw [if_pos h, if_neg h1]
  · have h1 : distRatio.length % 2 = 1 := by omega
    have h2 : (distRatio.length - 1) / 2 = distRatio.length / 2 := by omega
    rw [if_neg h, if_pos h1, h2]

theorem ttcFromDistRatio_eq (distRatio : List ℚ) (frameRate : ℚ) (hne : distRatio ≠ [])
    (hfr : 0 < frameRate) :
    ttcFromDistRatio distRatio frameRate =
      if median distRatio = 1 then F64.ninf
      else F64.fin (-(1 / frameRate) / (1 - median distRatio)) := by
  have hlen : ¬ distRatio.length = 0 := by
    intro h
    exact hne (List.length_eq_zero.1 h)
  have hfr0 : ¬ frameRate = 0 := ne_of_gt hfr
  unfold ttcFromDistRatio
  simp only [hlen, if_false]
  rw [medDistRatio_eq_median]
  simp only [F64.div, hfr0, if_false, F64.neg, F64.sub]
  by_cases hm : median distRatio = 1
  · have hneg : ¬ (0 : ℚ) < -(1 / frameRate) := by
      have : 0 < 1 / frameRate := one_div_pos.mpr hfr
      linarith
    have hnz : ¬ (-(1 / frameRate) = 0) := by
      have : 0 < 1 / frameRate := one_div_pos.mpr hfr
      linarith
    have hlt : ¬ frameRate < 0 := not_lt.mpr hfr.le
    simp [hm, F64.signedInf, hfr0, hlt]
  · have h1 : ¬ (1 - median distRatio = 0) := by
      intro h
      exact hm (by linarith)
    simp only [hm, h1, if_false]

/-- C4. For a non-empty vector of kept distance ratios and a positive frame rate, the second
half of `computeTTCCamera` returns `-dT / (1 - m)` with `dT = 1 / frameRate` and `m` the
median of the ratios (the middle element of the sorted sequence for an odd count, the
average of the two middle elements for an even count); as a `double`, the quotient is
`-inf` when `m = 1`. -/
theorem ttcFromDistRatio_median (distRatio : List ℚ) (frameRate : ℚ) (hne : distRatio ≠ [])
    (hfr : 0 < frameRate) :
    ttcFromDistRatio distRatio frameRate =
      F64.div (F64.fin (-(1 / frameRate))) (F64.fin (1 - median distRatio)) ∧
    (median distRatio ≠ 1 →
      ttcFromDistRatio distRatio frameRate =
        F64.fin (-(1 / frameRate) / (1 - median distRatio))) ∧
    (median distRatio = 1 → ttcFromDistRatio distRatio frameRate = F64.ninf) := by
  have h := ttcFromDistRatio_eq distRatio frameRate hne hfr
  refine ⟨?_, ?_, ?_⟩
  · rw [h]
    by_cases hm : median distRatio = 1
    · have hpos : 0 < 1 / frameRate := one_div_pos.mpr hfr
      have hneg : ¬ (0 : ℚ) < -(1 / frameRate) := by linarith
      have hnz : ¬ (-(1 / frameRate) = 0) := by linarith
      simp only [hm, if_true, F64.div, sub_self, F64.signedInf, hneg, hnz, if_false]
    · have h1 : ¬ (1 - median distRatio = 0) := by
        intro h0
        exact hm (by linarith)
      simp only [hm, if_false, F64.div, h1]
  · intro hm
    rw [h, if_neg hm]
  · intro hm
    rw [h, if_pos hm]

theorem median_example : median [1.02, 1.03, 1.05, 1.04] = 207 / 200 := by
  norm_num [median, List.insertionSort, List.orderedInsert]

/-- C4 at the input of the specification: ratios `[1.02, 1.03, 1.05, 1.04]` at frame rate 10
have median `1.035` and give the TTC `20/7`. -/
theorem ttcFromDistRatio_median_witness :
    ([1.02, 1.03, 1.05, 1.04] : List ℚ) ≠ [] ∧ (0 : ℚ) < 10 ∧
    median [1.02, 1.03, 1.05, 1.04] = 1.035 ∧
    ttcFromDistRatio [1.02, 1.03, 1.05, 1.04] 10 = F64.fin (20 / 7) := by
  have hm : median [1.02, 1.03, 1.05, 1.04] ≠ 1 := by
    rw [median_example]; norm_num
  have h := (ttcFromDistRatio_median [1.02, 1.03, 1.05, 1.04] 10 (by simp) (by norm_num)).2.1 hm
  refine ⟨by simp, by norm_num, by rw [median_example]; norm_num, ?_⟩
  rw [h, median_example]
  norm_num

/-- C16. For a positive frame rate and a non-empty ratio vector with median `m`: when
`m > 1` the camera TTC is the finite, strictly positive value `dT / (m - 1)`; when `m < 1`
it is finite and strictly negative. -/
theorem ttcFromDistRatio_sign (distRatio : List ℚ) (frameRate : ℚ) (hne : distRatio ≠ [])
    (hfr : 0 < frameRate) :
    (1 < median distRatio →
      ttcFromDistRatio distRatio frameRate =
        F64.fin ((1 / frameRate) / (median distRatio - 1)) ∧
      0 < (1 / frameRate) / (median distRatio - 1)) ∧
    (median distRatio < 1 →
      ∃ q : ℚ, ttcFromDistRatio distRatio frameRate = F64.fin q ∧ q < 0) := by
  have h := ttcFromDistRatio_eq distRatio frameRate hne hfr
  have hdT : 0 < 1 / frameRate := one_div_pos.mpr hfr
  constructor
  · intro hm
    have hne1 : ¬ median distRatio = 1 := ne_of_gt hm
    have hpos : 0 < median distRatio - 1 := by linarith
    refine ⟨?_, div_pos hdT hpos⟩
    rw [h, if_neg hne1]
    congr 1
    rw [show (1 - median distRatio) = -(median distRatio - 1) by ring, neg_div_neg_eq]
  · intro hm
    have hne1 : ¬ median distRatio = 1 := ne_of_lt hm
    refine ⟨_, by rw [h, if_neg hne1], ?_⟩
    have hpos : 0 < 1 - median distRatio := by linarith
    apply div_neg_of_neg_of_pos _ hpos
    linarith

/-- C16 at the input of the specification: ratios `[1.02, 1.03, 1.05, 1.04]` (median
`1.035 > 1`) at frame rate 10. -/
theorem ttcFromDistRatio_sign_witness :
    ([1.02, 1.03, 1.05, 1.04] : List ℚ) ≠ [] ∧ (0 : ℚ) < 10 ∧
    1 < median [1.02, 1.03, 1.05, 1.04] ∧
    ttcFromDistRatio [1.02, 1.03, 1.05, 1.04] 10 =
      F64.fin ((1 / 10) / (median [1.02, 1.03, 1.05, 1.04] - 1)) ∧
    0 < (1 / 10 : ℚ) / (median [1.02, 1.03, 1.05, 1.04] - 1) :=
  have hm : 1 < median [1.02, 1.03, 1.05, 1.04] := by
    rw [median_example]; norm_num
  ⟨by simp, by norm_num, hm,
    ((ttcFromDistRatio_sign [1.02, 1.03, 1.05, 1.04] 10 (by simp) (by norm_num)).1 hm).1,
    ((ttcFromDistRatio_sign [1.02, 1.03, 1.05, 1.04] 10 (by simp) (by norm_num)).1 hm).2⟩

theorem ratiosInner_none_kept (norm : Point2f → ℚ) (kptsPrev kptsCurr : List KeyPoint)
    (c p : KeyPoint) (inner : List DMatch) :
    ∀ acc : List ℚ,
      (∀ b ∈ inner, ∃ cb pb, kptsCurr[b.trainIdx]? = some cb ∧
        kptsPrev[b.queryIdx]? = some pb ∧
        ¬ (norm (p.pt.sub pb.pt) > epsilon ∧ norm (c.pt.sub cb.pt) ≥ minDist)) →
      ratiosInner norm kptsPrev kptsCurr c p inner acc = some acc := by
  induction inner with
  | nil => intro acc _; rfl
  | cons b bs ih =>
    intro acc h
    obtain ⟨cb, pb, hc, hp, hcond⟩ := h b (by simp)
    rw [ratiosInner, hc, hp]
    simp only [hcond, if_false]
    exact ih acc (fun b2 hb2 => h b2 (by simp [hb2]))

theorem ratiosOuter_none_kept (norm : Point2f → ℚ) (kptsPrev kptsCurr : List KeyPoint)
    (inner outer : List DMatch) (acc : List ℚ)
    (h : ∀ a ∈ outer, ∃ ca pa, kptsCurr[a.trainIdx]? = some ca ∧
      kptsPrev[a.queryIdx]? = some pa ∧
      ratiosInner norm kptsPrev kptsCurr ca pa inner acc = some acc) :
    ratiosOuter norm kptsPrev kptsCurr inner outer acc = some acc := by
  induction outer with
  | nil => rfl
  | cons a as ih =>
    obtain ⟨ca, pa, hc, hp, hi⟩ := h a (by simp)
    rw [ratiosOuter_cons_of_eq hi a as hc hp]
    exact ih (fun a2 ha2 => h a2 (by simp [ha2]))

theorem pairRatio_none_cond {norm : Point2f → ℚ} {kptsPrev kptsCurr : List KeyPoint}
    {a b : DMatch} {ca pa cb pb : KeyPoint}
    (hca : kptsCurr[a.trainIdx]? = some ca) (hpa : kptsPrev[a.queryIdx]? = some pa)
    (hcb : kptsCurr[b.trainIdx]? = some cb) (hpb : kptsPrev[b.queryIdx]? = some pb)
    (h : pairRatio norm kptsPrev kptsCurr a b = none) :
    ¬ (norm (pa.pt.sub pb.pt) > epsilon ∧ norm (ca.pt.sub cb.pt) ≥ minDist) := by
  intro hcond
  rw [pairRatio, hca, hpa, hcb, hpb] at h
  simp only [hcond, and_self, if_true] at h
  exact absurd h (by simp)

/-- C5. `computeTTCCamera` returns NaN for every single-match list, and for every non-empty
match list whose matches index existing keypoints and in which no two matches at different
positions form a kept pair (`distPrev > epsilon` and `distCurr >= 90`); the norm of the zero
vector is below 90, as for the Euclidean norm. -/
theorem computeTTCCamera_nan (norm : Point2f → ℚ) (kptsPrev kptsCurr : List KeyPoint)
    (kptMatches : List DMatch) (frameRate : ℚ)
    (h : kptMatches.length = 1 ∨
      (kptMatches ≠ [] ∧ norm ⟨0, 0⟩ < minDist ∧
        (∀ m ∈ kptMatches, m.queryIdx < kptsPrev.length ∧ m.trainIdx < kptsCurr.length) ∧
        ∀ i j : Nat, i ≠ j → ∀ a b : DMatch, kptMatches[i]? = some a →
          kptMatches[j]? = some b → pairRatio norm kptsPrev kptsCurr a b = none)) :
    distRatios norm kptsPrev kptsCurr kptMatches = some [] ∧
    computeTTCCamera norm kptsPrev kptsCurr kptMatches frameRate = some F64.nan := by
  have key : distRatios norm kptsPrev kptsCurr kptMatches = some [] := by
    rcases h with h1 | ⟨hne, hzero, hidx, hpairs⟩
    · match kptMatches, h1 with
      | [m], _ => rfl
    · have hall : ∀ a ∈ kptMatches, ∀ b ∈ kptMatches,
          ∃ ca pa cb pb, kptsCurr[a.trainIdx]? = some ca ∧ kptsPrev[a.queryIdx]? = some pa ∧
            kptsCurr[b.trainIdx]? = some cb ∧ kptsPrev[b.queryIdx]? = some pb ∧
            ¬ (norm (pa.pt.sub pb.pt) > epsilon ∧ norm (ca.pt.sub cb.pt) ≥ minDist) := by
        intro a ha b hb
        obtain ⟨haq, hat⟩ := hidx a ha
        obtain ⟨hbq, hbt⟩ := hidx b hb
        have hca := List.getElem?_eq_getElem hat
        have hpa := List.getElem?_eq_getElem haq
        have hcb := List.getElem?_eq_getElem hbt
        have hpb := List.getElem?_eq_getElem hbq
        refine ⟨_, _, _, _, hca, hpa, hcb, hpb, ?_⟩
        obtain ⟨i, hi⟩ := List.mem_iff_getElem?.1 ha
        obtain ⟨j, hj⟩ := List.mem_iff_getElem?.1 hb
        by_cases hij : i = j
        · subst hij
          have hab : a = b := by
            rw [hi] at hj
            exact Option.some.inj hj
          subst hab
          rintro ⟨-, h2⟩
          have hz : (kptsCurr[a.trainIdx]).pt.sub (kptsCurr[a.trainIdx]).pt = ⟨0, 0⟩ := by
            simp [Point2f.sub]
          rw [hz] at h2
          exact absurd hzero (not_lt.mpr h2)
        · exact pairRatio_none_cond hca hpa hcb hpb (hpairs i j hij a b hi hj)
      cases hk : kptMatches with
      | nil => exact absurd hk hne
      | cons m ms =>
        rw [← hk]
        have hd : distRatios norm kptsPrev kptsCurr kptMatches =
            ratiosOuter norm kptsPrev kptsCurr kptMatches.tail kptMatches.dropLast [] := by
          rw [hk]; rfl
        rw [hd]
        apply ratiosOuter_none_kept
        intro a ha
        have ha2 : a ∈ kptMatches := List.mem_of_mem_dropLast ha
        obtain ⟨haq, hat⟩ := hidx a ha2
        refine ⟨_, _, List.getElem?_eq_getElem hat, List.getElem?_eq_getElem haq, ?_⟩
        apply ratiosInner_none_kept
        intro b hb
        have hb2 : b ∈ kptMatches := List.mem_of_mem_tail hb
        obtain ⟨ca, pa, cb, pb, hca, hpa, hcb, hpb, hcond⟩ := hall a ha2 b hb2
        refine ⟨cb, pb, hcb, hpb, ?_⟩
        rw [List.getElem?_eq_getElem hat] at hca
        rw [List.getElem?_eq_getElem haq] at hpa
        rw [Option.some.inj hca, Option.some.inj hpa]
        exact hcond
  refine ⟨key, ?_⟩
  rw [computeTTCCamera, key]
  rfl

/-- C5 at a concrete input: two matches whose current keypoints are 20 pixels apart. -/
theorem computeTTCCamera_nan_witness :
    computeTTCCamera l2norm [⟨⟨0, 0⟩⟩, ⟨⟨10, 0⟩⟩] [⟨⟨0, 0⟩⟩, ⟨⟨20, 0⟩⟩] [⟨0, 0⟩, ⟨1, 1⟩] 10 =
      some F64.nan :=
  (computeTTCCamera_nan l2norm [⟨⟨0, 0⟩⟩, ⟨⟨10, 0⟩⟩] [⟨⟨0, 0⟩⟩, ⟨⟨20, 0⟩⟩] [⟨0, 0⟩, ⟨1, 1⟩] 10
    (Or.inr ⟨by simp, by norm_num [l2norm_axis, minDist], by simp, by
      intro i j hij a b ha hb
      have hi : i < 2 := by
        by_contra hc
        rw [List.getElem?_eq_none (by simpa using hc)] at ha
        exact absurd ha (by simp)
      have hj : j < 2 := by
        by_contra hc
        rw [List.getElem?_eq_none (by simpa using hc)] at hb
        exact absurd hb (by simp)
      interval_cases i <;> interval_cases j <;> simp at hij ha hb <;> subst ha <;> subst hb <;>
        norm_num [pairRatio, Point2f.sub, l2norm_axis, epsilon, minDist]⟩)).2

/-! ### computeTTCLidar -/

theorem foldl_add_x (pts : List LidarPoint) :
    ∀ acc : ℚ, pts.foldl (fun acc p => acc + p.x) acc = acc + (pts.map (fun p => p.x)).sum := by
  induction pts with
  | nil => intro acc; simp
  | cons p ps ih =>
    intro acc
    simp only [List.foldl_cons, List.map_cons, List.sum_cons, ih]
    ring

theorem meanX_of_ne_nil {pts : List LidarPoint} (h : pts ≠ []) :
    meanX pts = F64.fin (meanOfX pts) := by
  have hlen : ¬ ((pts.length : ℚ) = 0) := by
    intro h0
    have : pts.length = 0 := by exact_mod_cast h0
    exact h (List.length_eq_zero.1 this)
  simp only [meanX, meanOfX, F64.div, hlen, if_false, foldl_add_x, zero_add]

theorem meanX_nil : meanX [] = F64.nan := by
  simp [meanX, F64.div, F64.signedInf]

theorem isOutlierX_fin (m : ℚ) (p : LidarPoint) :
    isOutlierX (F64.fin m) p = decide (3 / 100 * m ≤ |m - p.x|) := by
  simp [isOutlierX, F64.sub, F64.abs, F64.mul, F64.ge]

theorem isOutlierX_iff_deviates (m : ℚ) (p : LidarPoint) :
    isOutlierX (F64.fin m) p = true ↔ deviates m p := by
  rw [isOutlierX_fin, decide_eq_true_eq, deviates, abs_sub_comm]

theorem length_trimLoop_le (mean : F64) :
    ∀ (n : Nat) (l : List LidarPoint), l.length ≤ n → (trimLoop mean l).length ≤ l.length := by
  intro n
  induction n with
  | zero =>
    intro l hl
    have : l = [] := List.length_eq_zero.1 (by omega)
    subst this
    simp [trimLoop]
  | succ n ih =>
    intro l hl
    match l with
    | [] => simp [trimLoop]
    | [p] =>
      by_cases hp : isOutlierX mean p = true
      · simp [trimLoop, hp]
      · simp [trimLoop, hp]
    | p :: q :: rest =>
      by_cases hp : isOutlierX mean p = true
      · have := ih rest (by simp at hl; omega)
        simp only [trimLoop, hp, if_true, List.length_cons]
        omega
      · have := ih (q :: rest) (by simp at hl ⊢; omega)
        simp only [trimLoop, hp, List.length_cons] at this ⊢
        simp only [Bool.false_eq_true, if_false, List.length_cons]
        omega

theorem trimLoop_eq_self_iff (mean : F64) :
    ∀ (n : Nat) (l : List LidarPoint), l.length ≤ n →
      (trimLoop mean l = l ↔ ∀ p ∈ l, isOutlierX mean p = false) := by
  intro n
  induction n with
  | zero =>
    intro l hl
    have : l = [] := List.length_eq_zero.1 (by omega)
    subst this
    simp [trimLoop]
  | succ n ih =>
    intro l hl
    match l with
    | [] => simp [trimLoop]
    | [p] =>
      by_cases hp : isOutlierX mean p = true
      · simp [trimLoop, hp]
      · simp [trimLoop, hp]
    | p :: q :: rest =>
      by_cases hp : isOutlierX mean p = true
      · have hlen := length_trimLoop_le mean rest.length rest (le_refl _)
        constructor
        · intro h
          have h2 := congrArg List.length h
          simp only [trimLoop, hp, if_true, List.length_cons] at h2
          omega
        · intro h
          have := h p (by simp)
          rw [hp] at this
          exact absurd this (by simp)
      · have hih := ih (q :: rest) (by simp at hl ⊢; omega)
        have hp2 : isOutlierX mean p = false := by simpa using hp
        simp only [trimLoop, hp2, Bool.false_eq_true, if_false, List.cons.injEq, true_and]
        rw [hih]
        constructor
        · intro h x hx
          rcases List.mem_cons.1 hx with rfl | hx2
          · exact hp2
          · exact h x hx2
        · intro h x hx
          exact h x (List.mem_cons_of_mem _ hx)

theorem trimLoop_eq_nil {mean : F64} {l : List LidarPoint} (h : trimLoop mean l = []) :
    l = [] ∨ ∃ p, l = [p] ∧ isOutlierX mean p = true := by
  match l with
  | [] => exact Or.inl rfl
  | [p] =>
    by_cases hp : isOutlierX mean p = true
    · exact Or.inr ⟨p, rfl, hp⟩
    · simp [trimLoop, hp] at h
  | p :: q :: rest =>
    by_cases hp : isOutlierX mean p = true
    · simp [trimLoop, hp] at h
    · simp [trimLoop, hp] at h
/-- C6 (failing input). Points with `x = 10, 11, 9`: the mean is 10, both 11 and 9 deviate
by 1, more than 3% of the mean.  The loop erases 11 and steps over 9, which stays in the
set. -/
theorem trimLoop_keeps_outlier :
    meanX [⟨10, 0, 0, 0⟩, ⟨11, 0, 0, 0⟩, ⟨9, 0, 0, 0⟩] = F64.fin 10 ∧
    meanOfX [⟨10, 0, 0, 0⟩, ⟨11, 0, 0, 0⟩, ⟨9, 0, 0, 0⟩] = 10 ∧
    trimLoop (meanX [⟨10, 0, 0, 0⟩, ⟨11, 0, 0, 0⟩, ⟨9, 0, 0, 0⟩])
      [⟨10, 0, 0, 0⟩, ⟨11, 0, 0, 0⟩, ⟨9, 0, 0, 0⟩] = [⟨10, 0, 0, 0⟩, ⟨9, 0, 0, 0⟩] ∧
    (computeTTCLidar [⟨10, 0, 0, 0⟩, ⟨11, 0, 0, 0⟩, ⟨9, 0, 0, 0⟩]
      [⟨10, 0, 0, 0⟩, ⟨11, 0, 0, 0⟩, ⟨9, 0, 0, 0⟩] 10).lidarPointsPrev =
        [⟨10, 0, 0, 0⟩, ⟨9, 0, 0, 0⟩] ∧
    deviates 10 ⟨9, 0, 0, 0⟩ := by
  have hm : meanX [⟨10, 0, 0, 0⟩, ⟨11, 0, 0, 0⟩, ⟨9, 0, 0, 0⟩] = F64.fin 10 := by
    norm_num [meanX, F64.div]
  have ht : trimLoop (meanX [⟨10, 0, 0, 0⟩, ⟨11, 0, 0, 0⟩, ⟨9, 0, 0, 0⟩])
      [⟨10, 0, 0, 0⟩, ⟨11, 0, 0, 0⟩, ⟨9, 0, 0, 0⟩] = [⟨10, 0, 0, 0⟩, ⟨9, 0, 0, 0⟩] := by
    rw [hm]
    norm_num [trimLoop, isOutlierX_fin]
  refine ⟨hm, by norm_num [meanOfX], ht, ?_, by norm_num [deviates]⟩
  simp only [computeTTCLidar]
  exact ht

/-- C7. For non-empty point sets and a positive frame rate, `computeTTCLidar` returns
`meanXCurr * (1 / frameRate) / (meanXPrev - meanXCurr)`, the means being recomputed over the
point sets it leaves after trimming: the `double` quotient in general, and the rational
value of the formula when both trimmed sets are non-empty and their means differ. -/
theorem computeTTCLidar_formula (lidarPointsPrev lidarPointsCurr : List LidarPoint)
    (frameRate : ℚ) (_hp : lidarPointsPrev ≠ []) (_hc : lidarPointsCurr ≠ [])
    (hfr : 0 < frameRate) :
    (computeTTCLidar lidarPointsPrev lidarPointsCurr frameRate).lidarPointsPrev =
      trimLoop (meanX lidarPointsPrev) lidarPointsPrev ∧
    (computeTTCLidar lidarPointsPrev lidarPointsCurr frameRate).lidarPointsCurr =
      trimLoop (meanX lidarPointsCurr) lidarPointsCurr ∧
    (computeTTCLidar lidarPointsPrev lidarPointsCurr frameRate).TTC =
      F64.div
        (F64.mul
          (meanX (computeTTCLidar lidarPointsPrev lidarPointsCurr frameRate).lidarPointsCurr)
          (F64.fin (1 / frameRate)))
        (F64.sub
          (meanX (computeTTCLidar lidarPointsPrev lidarPointsCurr frameRate).lidarPointsPrev)
          (meanX (computeTTCLidar lidarPointsPrev lidarPointsCurr frameRate).lidarPointsCurr)) ∧
    ((computeTTCLidar lidarPointsPrev lidarPointsCurr frameRate).lidarPointsPrev ≠ [] →
      (computeTTCLidar lidarPointsPrev lidarPointsCurr frameRate).lidarPointsCurr ≠ [] →
      meanOfX (computeTTCLidar lidarPointsPrev lidarPointsCurr frameRate).lidarPointsPrev ≠
        meanOfX (computeTTCLidar lidarPointsPrev lidarPointsCurr frameRate).lidarPointsCurr →
      (computeTTCLidar lidarPointsPrev lidarPointsCurr frameRate).TTC =
        F64.fin
          (meanOfX (computeTTCLidar lidarPointsPrev lidarPointsCurr frameRate).lidarPointsCurr *
              (1 / frameRate) /
            (meanOfX (computeTTCLidar lidarPointsPrev lidarPointsCurr frameRate).lidarPointsPrev -
              meanOfX
                (computeTTCLidar lidarPointsPrev lidarPointsCurr frameRate).lidarPointsCurr))) := by
  have hfr0 : ¬ frameRate = 0 := ne_of_gt hfr
  refine ⟨rfl, rfl, ?_, ?_⟩
  · simp only [computeTTCLidar, F64.div, hfr0, if_false]
  · intro hp2 hc2 hne
    simp only [computeTTCLidar] at hp2 hc2 hne ⊢
    rw [meanX_of_ne_nil hp2, meanX_of_ne_nil hc2]
    have hd : ¬ (meanOfX (trimLoop (meanX lidarPointsPrev) lidarPointsPrev) -
        meanOfX (trimLoop (meanX lidarPointsCurr) lidarPointsCurr) = 0) := by
      intro h0
      exact hne (by linarith)
    simp only [F64.div, hfr0, if_false, F64.mul, F64.sub, hd]

/-- C7 at the input of the specification: nothing is trimmed, the previous mean is 10, the
current mean 9.5, the frame rate 10, and the TTC is `19/10`. -/
theorem computeTTCLidar_formula_witness :
    (computeTTCLidar [⟨10, 0, 0, 0⟩, ⟨10, 0, 0, 0⟩] [⟨19 / 2, 0, 0, 0⟩, ⟨19 / 2, 0, 0, 0⟩]
      10).TTC = F64.fin (19 / 10) := by
  have hp : trimLoop (meanX [⟨10, 0, 0, 0⟩, ⟨10, 0, 0, 0⟩])
      [⟨10, 0, 0, 0⟩, ⟨10, 0, 0, 0⟩] = [⟨10, 0, 0, 0⟩, ⟨10, 0, 0, 0⟩] := by
    have hm : meanX [⟨10, 0, 0, 0⟩, ⟨10, 0, 0, 0⟩] = F64.fin 10 := by
      norm_num [meanX, F64.div]
    rw [hm]
    norm_num [trimLoop, isOutlierX_fin]
  have hc : trimLoop (meanX [⟨19 / 2, 0, 0, 0⟩, ⟨19 / 2, 0, 0, 0⟩])
      [⟨19 / 2, 0, 0, 0⟩, ⟨19 / 2, 0, 0, 0⟩] = [⟨19 / 2, 0, 0, 0⟩, ⟨19 / 2, 0, 0, 0⟩] := by
    have hm : meanX [⟨19 / 2, 0, 0, 0⟩, ⟨19 / 2, 0, 0, 0⟩] = F64.fin (19 / 2) := by
      norm_num [meanX, F64.div]
    rw [hm]
    norm_num [trimLoop, isOutlierX_fin]
  have h := (computeTTCLidar_formula [⟨10, 0, 0, 0⟩, ⟨10, 0, 0, 0⟩]
    [⟨19 / 2, 0, 0, 0⟩, ⟨19 / 2, 0, 0, 0⟩] 10 (by simp) (by simp) (by norm_num)).2.2.2
  have e1 : (computeTTCLidar [⟨10, 0, 0, 0⟩, ⟨10, 0, 0, 0⟩]
      [⟨19 / 2, 0, 0, 0⟩, ⟨19 / 2, 0, 0, 0⟩] 10).lidarPointsPrev =
        [⟨10, 0, 0, 0⟩, ⟨10, 0, 0, 0⟩] := hp
  have e2 : (computeTTCLidar [⟨10, 0, 0, 0⟩, ⟨10, 0, 0, 0⟩]
      [⟨19 / 2, 0, 0, 0⟩, ⟨19 / 2, 0, 0, 0⟩] 10).lidarPointsCurr =
        [⟨19 / 2, 0, 0, 0⟩, ⟨19 / 2, 0, 0, 0⟩] := hc
  rw [e1, e2] at h
  rw [h (by simp) (by simp) (by norm_num [meanOfX])]
  norm_num [meanOfX]

/-- C8 (counterexample). Points with `x = 100, 94, 100, 95`: the mean is 97.25 and only 94
deviates by 3% or more, so the trim leaves `100, 100, 95`.  The mean of this trimmed set is
`295/3`, from which 95 deviates by more than 3%: a second trim removes it. -/
theorem trimLoop_not_idempotent :
    trimLoop (meanX [⟨100, 0, 0, 0⟩, ⟨94, 0, 0, 0⟩, ⟨100, 0, 0, 0⟩, ⟨95, 0, 0, 0⟩])
      [⟨100, 0, 0, 0⟩, ⟨94, 0, 0, 0⟩, ⟨100, 0, 0, 0⟩, ⟨95, 0, 0, 0⟩] =
      [⟨100, 0, 0, 0⟩, ⟨100, 0, 0, 0⟩, ⟨95, 0, 0, 0⟩] ∧
    trimLoop (meanX [⟨100, 0, 0, 0⟩, ⟨100, 0, 0, 0⟩, ⟨95, 0, 0, 0⟩])
      [⟨100, 0, 0, 0⟩, ⟨100, 0, 0, 0⟩, ⟨95, 0, 0, 0⟩] =
      [⟨100, 0, 0, 0⟩, ⟨100, 0, 0, 0⟩] := by
  have hm1 : meanX [⟨100, 0, 0, 0⟩, ⟨94, 0, 0, 0⟩, ⟨100, 0, 0, 0⟩, ⟨95, 0, 0, 0⟩] =
      F64.fin (389 / 4) := by
    norm_num [meanX, F64.div]
  have hm2 : meanX [⟨100, 0, 0, 0⟩, ⟨100, 0, 0, 0⟩, ⟨95, 0, 0, 0⟩] = F64.fin (295 / 3) := by
    norm_num [meanX, F64.div]
  constructor
  · rw [hm1]
    norm_num [trimLoop, isOutlierX_fin, abs_of_pos, abs_of_neg]
  · rw [hm2]
    norm_num [trimLoop, isOutlierX_fin, abs_of_pos, abs_of_neg]

/-- C8 (amended). The trim of a non-empty point set removes no point exactly when no point
of the set deviates from the mean of the set by 3% of that mean or more. -/
theorem trimLoop_fixed_iff (pts : List LidarPoint) (hne : pts ≠ []) :
    trimLoop (meanX pts) pts = pts ↔
      ∀ p ∈ pts, |p.x - meanOfX pts| < 3 / 100 * meanOfX pts := by
  rw [trimLoop_eq_self_iff (meanX pts) pts.length pts (le_refl _), meanX_of_ne_nil hne]
  constructor
  · intro h p hp
    have := h p hp
    rw [isOutlierX_fin, decide_eq_false_iff_not, not_le, abs_sub_comm] at this
    exact this
  · intro h p hp
    rw [isOutlierX_fin, decide_eq_false_iff_not, not_le, abs_sub_comm]
    exact h p hp

/-- C8 (amended) at a concrete input: the set `100, 100` is left unchanged by the trim. -/
theorem trimLoop_fixed_iff_witness :
    trimLoop (meanX [⟨100, 0, 0, 0⟩, ⟨100, 0, 0, 0⟩]) [⟨100, 0, 0, 0⟩, ⟨100, 0, 0, 0⟩] =
      [⟨100, 0, 0, 0⟩, ⟨100, 0, 0, 0⟩] :=
  (trimLoop_fixed_iff [⟨100, 0, 0, 0⟩, ⟨100, 0, 0, 0⟩] (by simp)).2 (by
    intro p hp
    simp only [List.mem_cons, List.mem_singleton, List.not_mem_nil, or_false, or_self] at hp
    subst hp
    norm_num [meanOfX])

/-- C18. For a non-empty point set whose `x` values are all strictly positive, the trimming
loop of `computeTTCLidar` leaves at least one point, and the mean recomputed over the
trimmed set is a finite value (its division is by a non-zero count). -/
theorem trimLoop_ne_nil (pts : List LidarPoint) (hne : pts ≠ [])
    (hpos : ∀ p ∈ pts, 0 < p.x) :
    trimLoop (meanX pts) pts ≠ [] ∧
    (trimLoop (meanX pts) pts).length ≠ 0 ∧
    meanX (trimLoop (meanX pts) pts) = F64.fin (meanOfX (trimLoop (meanX pts) pts)) := by
  have h1 : trimLoop (meanX pts) pts ≠ [] := by
    intro h
    rcases trimLoop_eq_nil h with h0 | ⟨p, hp, hout⟩
    · exact hne h0
    · subst hp
      have hx : 0 < p.x := hpos p (by simp)
      rw [meanX_of_ne_nil (by simp), isOutlierX_fin, decide_eq_true_eq] at hout
      simp [meanOfX] at hout
      linarith
  refine ⟨h1, ?_, meanX_of_ne_nil h1⟩
  intro h0
  exact h1 (List.length_eq_zero.1 h0)

/-- C18 at a concrete input: the set `10, 11, 9`. -/
theorem trimLoop_ne_nil_witness :
    trimLoop (meanX [⟨10, 0, 0, 0⟩, ⟨11, 0, 0, 0⟩, ⟨9, 0, 0, 0⟩])
      [⟨10, 0, 0, 0⟩, ⟨11, 0, 0, 0⟩, ⟨9, 0, 0, 0⟩] ≠ [] :=
  (trimLoop_ne_nil [⟨10, 0, 0, 0⟩, ⟨11, 0, 0, 0⟩, ⟨9, 0, 0, 0⟩] (by simp) (by
    intro p hp
    simp only [List.mem_cons, List.mem_singleton, List.not_mem_nil, or_false] at hp
    rcases hp with rfl | rfl | rfl <;> norm_num)).1

/-! ### clusterKptMatchesWithROI -/

theorem assignLoop_eq (roi : Rect) (kptsCurr : List KeyPoint) (ms : List DMatch) :
    ∀ acc : List DMatch, (∀ m ∈ ms, m.trainIdx < kptsCurr.length) →
      assignLoop roi kptsCurr ms acc = some (acc ++ ms.filter (currInside roi kptsCurr)) := by
  induction ms with
  | nil => intro acc _; simp [assignLoop]
  | cons m ms ih =>
    intro acc h
    have ht : m.trainIdx < kptsCurr.length := h m (by simp)
    have hm : kptsCurr[m.trainIdx]? = some (kptsCurr[m.trainIdx]) :=
      List.getElem?_eq_getElem ht
    have hrest : ∀ m2 ∈ ms, m2.trainIdx < kptsCurr.length :=
      fun m2 hm2 => h m2 (by simp [hm2])
    rw [assignLoop, hm]
    by_cases hc : roi.contains (kptsCurr[m.trainIdx]).pt.toPoint = true
    · have hin : currInside roi kptsCurr m = true := by simp [currInside, hm, hc]
      simp only [hc, if_true, ih _ hrest, List.filter_cons, hin, List.append_assoc,
        List.singleton_append]
    · have hin : currInside roi kptsCurr m = false := by simp [currInside, hm, hc]
      simp only [hc, if_false, ih _ hrest, List.filter_cons, hin, Bool.false_eq_true]

theorem displacement_eq (norm : Point2f → ℚ) {kptsPrev kptsCurr : List KeyPoint} {m : DMatch}
    {c p : KeyPoint} (hc : kptsCurr[m.trainIdx]? = some c) (hp : kptsPrev[m.queryIdx]? = some p) :
    displacement norm kptsPrev kptsCurr m = norm (c.pt.sub p.pt) := by
  simp only [displacement, hc, hp]

theorem sumDist_eq (norm : Point2f → ℚ) (kptsPrev kptsCurr : List KeyPoint)
    (ms : List DMatch) :
    ∀ acc : ℚ,
      (∀ m ∈ ms, m.queryIdx < kptsPrev.length ∧ m.trainIdx < kptsCurr.length) →
      sumDist norm kptsPrev kptsCurr ms acc =
        some (acc + (ms.map (displacement norm kptsPrev kptsCurr)).sum) := by
  induction ms with
  | nil => intro acc _; simp [sumDist]
  | cons m ms ih =>
    intro acc h
    obtain ⟨hq, ht⟩ := h m (by simp)
    have hc := List.getElem?_eq_getElem ht
    have hp := List.getElem?_eq_getElem hq
    rw [sumDist, hc, hp]
    simp only [ih _ (fun m2 hm2 => h m2 (by simp [hm2])), List.map_cons, List.sum_cons,
      displacement_eq norm hc hp]
    congr 1
    ring

theorem eraseLoop_eq (norm : Point2f → ℚ) (kptsPrev kptsCurr : List KeyPoint) (mean : ℚ)
    (ms : List DMatch)
    (h : ∀ m ∈ ms, m.queryIdx < kptsPrev.length ∧ m.trainIdx < kptsCurr.length) :
    eraseLoop norm kptsPrev kptsCurr (F64.fin mean) ms =
      some (ms.filter (fun m => decide (displacement norm kptsPrev kptsCurr m < 2 * mean))) := by
  induction ms with
  | nil => simp [eraseLoop]
  | cons m ms ih =>
    obtain ⟨hq, ht⟩ := h m (by simp)
    have hc := List.getElem?_eq_getElem ht
    have hp := List.getElem?_eq_getElem hq
    rw [eraseLoop, hc, hp]
    simp only [ih (fun m2 hm2 => h m2 (by simp [hm2])), F64.mul, F64.ge, List.filter_cons,
      displacement_eq norm hc hp]
    by_cases hd : norm ((kptsCurr[m.trainIdx]).pt.sub (kptsPrev[m.queryIdx]).pt) < 2 * mean
    · have hge : ¬ (mean * 2 ≤ norm ((kptsCurr[m.trainIdx]).pt.sub (kptsPrev[m.queryIdx]).pt)) := by
        intro hle
        linarith
      simp [hd, hge]
    · have hge : mean * 2 ≤ norm ((kptsCurr[m.trainIdx]).pt.sub (kptsPrev[m.queryIdx]).pt) := by
        linarith [not_lt.mp hd]
      simp [hd, hge]

theorem clusterKptMatchesWithROI_eq (norm : Point2f → ℚ) (boundingBox : BoundingBox)
    (kptsPrev kptsCurr : List KeyPoint) (kptMatches : List DMatch)
    (hempty : boundingBox.kptMatches = [])
    (hidx : ∀ m ∈ kptMatches, m.queryIdx < kptsPrev.length ∧ m.trainIdx < kptsCurr.length)
    (hsome : ∃ m ∈ kptMatches, currInside boundingBox.roi kptsCurr m = true) :
    clusterKptMatchesWithROI norm boundingBox kptsPrev kptsCurr kptMatches =
      some { boundingBox with
        kptMatches := kptMatches.filter (fun m =>
          currInside boundingBox.roi kptsCurr m &&
            decide (displacement norm kptsPrev kptsCurr m <
              2 * meanDisplacement norm boundingBox.roi kptsPrev kptsCurr kptMatches)) } := by
  have hassigned := assignLoop_eq boundingBox.roi kptsCurr kptMatches []
    (fun m hm => (hidx m hm).2)
  have hidx2 : ∀ m ∈ kptMatches.filter (currInside boundingBox.roi kptsCurr),
      m.queryIdx < kptsPrev.length ∧ m.trainIdx < kptsCurr.length :=
    fun m hm => hidx m (List.mem_of_mem_filter hm)
  have hlen : ¬ (((kptMatches.filter (currInside boundingBox.roi kptsCurr)).length : ℚ) = 0) := by
    intro h0
    have h1 : (kptMatches.filter (currInside boundingBox.roi kptsCurr)).length = 0 := by
      exact_mod_cast h0
    obtain ⟨m, hm, hin⟩ := hsome
    have : m ∈ kptMatches.filter (currInside boundingBox.roi kptsCurr) :=
      List.mem_filter.2 ⟨hm, hin⟩
    rw [List.length_eq_zero.1 h1] at this
    exact absurd this (by simp)
  rw [clusterKptMatchesWithROI, hempty, hassigned]
  simp only [List.nil_append, sumDist_eq norm kptsPrev kptsCurr _ 0 hidx2, zero_add, F64.div,
    hlen, if_false]
  rw [eraseLoop_eq norm kptsPrev kptsCurr _ _ hidx2]
  simp only [List.filter_filter, meanDisplacement]
  congr 2
  apply List.filter_congr
  intro m _
  rw [Bool.and_comm]

/-- C9. For a box with an empty match set, matches indexing existing keypoints, and at least
one match whose current keypoint lies inside the region, `clusterKptMatchesWithROI` leaves
in the box exactly the input matches, in input order, whose current keypoint lies inside the
region and whose displacement is strictly less than twice the mean displacement, the mean
being taken once over all matches whose current keypoint lies inside the region. -/
theorem clusterKptMatchesWithROI_filter (norm : Point2f → ℚ) (boundingBox : BoundingBox)
    (kptsPrev kptsCurr : List KeyPoint) (kptMatches : List DMatch)
    (hempty : boundingBox.kptMatches = [])
    (hidx : ∀ m ∈ kptMatches, m.queryIdx < kptsPrev.length ∧ m.trainIdx < kptsCurr.length)
    (hsome : ∃ m ∈ kptMatches, currInside boundingBox.roi kptsCurr m = true) :
    clusterKptMatchesWithROI norm boundingBox kptsPrev kptsCurr kptMatches =
      some { boundingBox with
        kptMatches := kptMatches.filter (fun m =>
          currInside boundingBox.roi kptsCurr m &&
            decide (displacement norm kptsPrev kptsCurr m <
              2 * meanDisplacement norm boundingBox.roi kptsPrev kptsCurr kptMatches)) } :=
  clusterKptMatchesWithROI_eq norm boundingBox kptsPrev kptsCurr kptMatches hempty hidx hsome
theorem exists_le_mean (l : List ℚ) (hne : l ≠ []) : ∃ x ∈ l, x ≤ l.sum / l.length := by
  by_contra hcon
  push_neg at hcon
  have hlen : (0 : ℚ) < l.length := by
    have : 0 < l.length := List.length_pos.2 hne
    exact_mod_cast this
  have key : ∀ (l2 : List ℚ) (c : ℚ), l2 ≠ [] → (∀ x ∈ l2, c < x) → l2.length * c < l2.sum := by
    intro l2 c
    induction l2 with
    | nil => intro h; exact absurd rfl h
    | cons a t ih =>
      intro _ hall
      have ha : c < a := hall a (by simp)
      by_cases ht : t = []
      · subst ht; simpa using ha
      · have := ih ht (fun x hx => hall x (by simp [hx]))
        simp only [List.length_cons, List.sum_cons]
        push_cast
        linarith
  have h := key l (l.sum / l.length) hne hcon
  rw [mul_div_cancel₀ _ (ne_of_gt hlen)] at h
  exact lt_irrefl _ h

/-- C9 at a concrete input: three matches with current keypoints inside the box and
displacements 1, 1 and 20. -/
theorem clusterKptMatchesWithROI_filter_witness :
    clusterKptMatchesWithROI l2norm ⟨0, ⟨0, 0, 100, 100⟩, [], []⟩
      [⟨⟨10, 0⟩⟩, ⟨⟨20, 0⟩⟩, ⟨⟨30, 0⟩⟩] [⟨⟨11, 0⟩⟩, ⟨⟨21, 0⟩⟩, ⟨⟨50, 0⟩⟩]
      [⟨0, 0⟩, ⟨1, 1⟩, ⟨2, 2⟩] =
    some { (⟨0, ⟨0, 0, 100, 100⟩, [], []⟩ : BoundingBox) with
      kptMatches := ([⟨0, 0⟩, ⟨1, 1⟩, ⟨2, 2⟩] : List DMatch).filter (fun m =>
        currInside ⟨0, 0, 100, 100⟩ [⟨⟨11, 0⟩⟩, ⟨⟨21, 0⟩⟩, ⟨⟨50, 0⟩⟩] m &&
          decide (displacement l2norm [⟨⟨10, 0⟩⟩, ⟨⟨20, 0⟩⟩, ⟨⟨30, 0⟩⟩]
              [⟨⟨11, 0⟩⟩, ⟨⟨21, 0⟩⟩, ⟨⟨50, 0⟩⟩] m <
            2 * meanDisplacement l2norm ⟨0, 0, 100, 100⟩ [⟨⟨10, 0⟩⟩, ⟨⟨20, 0⟩⟩, ⟨⟨30, 0⟩⟩]
              [⟨⟨11, 0⟩⟩, ⟨⟨21, 0⟩⟩, ⟨⟨50, 0⟩⟩] [⟨0, 0⟩, ⟨1, 1⟩, ⟨2, 2⟩])) } :=
  clusterKptMatchesWithROI_filter l2norm ⟨0, ⟨0, 0, 100, 100⟩, [], []⟩
    [⟨⟨10, 0⟩⟩, ⟨⟨20, 0⟩⟩, ⟨⟨30, 0⟩⟩] [⟨⟨11, 0⟩⟩, ⟨⟨21, 0⟩⟩, ⟨⟨50, 0⟩⟩]
    [⟨0, 0⟩, ⟨1, 1⟩, ⟨2, 2⟩] rfl (by simp)
    ⟨⟨0, 0⟩, by simp, by
      norm_num [currInside, Point2f.toPoint, cvRound, Rect.contains]⟩

/-- C19. For a box with an empty match set, matches indexing existing keypoints, at least
one match whose current keypoint lies inside the box, and a norm without negative values:
the match set left by `clusterKptMatchesWithROI` is non-empty exactly when the mean
displacement is strictly positive; a mean of zero removes every match. -/
theorem clusterKptMatchesWithROI_nonempty_iff (norm : Point2f → ℚ)
    (boundingBox : BoundingBox) (kptsPrev kptsCurr : List KeyPoint)
    (kptMatches : List DMatch) (hnorm : ∀ v, 0 ≤ norm v)
    (hempty : boundingBox.kptMatches = [])
    (hidx : ∀ m ∈ kptMatches, m.queryIdx < kptsPrev.length ∧ m.trainIdx < kptsCurr.length)
    (hsome : ∃ m ∈ kptMatches, currInside boundingBox.roi kptsCurr m = true) :
    ∃ b : BoundingBox,
      clusterKptMatchesWithROI norm boundingBox kptsPrev kptsCurr kptMatches = some b ∧
      (b.kptMatches ≠ [] ↔
        0 < meanDisplacement norm boundingBox.roi kptsPrev kptsCurr kptMatches) ∧
      (meanDisplacement norm boundingBox.roi kptsPrev kptsCurr kptMatches = 0 →
        b.kptMatches = []) := by
  have hdisp : ∀ m, 0 ≤ displacement norm kptsPrev kptsCurr m := by
    intro m
    unfold displacement
    split
    · exact hnorm _
    · exact le_refl _
  have hiff : (kptMatches.filter (fun m =>
        currInside boundingBox.roi kptsCurr m &&
          decide (displacement norm kptsPrev kptsCurr m <
            2 * meanDisplacement norm boundingBox.roi kptsPrev kptsCurr kptMatches))) ≠ [] ↔
      0 < meanDisplacement norm boundingBox.roi kptsPrev kptsCurr kptMatches := by
    constructor
    · intro hne
      obtain ⟨m, hm⟩ := List.exists_mem_of_ne_nil _ hne
      have h2 := (List.mem_filter.1 hm).2
      simp only [Bool.and_eq_true, decide_eq_true_eq] at h2
      have := hdisp m
      linarith [h2.2]
    · intro hpos
      have hA : (kptMatches.filter (currInside boundingBox.roi kptsCurr)).map
          (displacement norm kptsPrev kptsCurr) ≠ [] := by
        obtain ⟨m, hm, hin⟩ := hsome
        intro h0
        have hmem : displacement norm kptsPrev kptsCurr m ∈
            (kptMatches.filter (currInside boundingBox.roi kptsCurr)).map
              (displacement norm kptsPrev kptsCurr) :=
          List.mem_map.2 ⟨m, List.mem_filter.2 ⟨hm, hin⟩, rfl⟩
        rw [h0] at hmem
        exact absurd hmem (by simp)
      obtain ⟨x, hx, hle⟩ := exists_le_mean _ hA
      obtain ⟨m, hm, rfl⟩ := List.mem_map.1 hx
      rw [List.length_map] at hle
      have hmean : displacement norm kptsPrev kptsCurr m ≤
          meanDisplacement norm boundingBox.roi kptsPrev kptsCurr kptMatches := hle
      obtain ⟨hm1, hm2⟩ := List.mem_filter.1 hm
      intro h0
      have hmem : m ∈ kptMatches.filter (fun m =>
          currInside boundingBox.roi kptsCurr m &&
            decide (displacement norm kptsPrev kptsCurr m <
              2 * meanDisplacement norm boundingBox.roi kptsPrev kptsCurr kptMatches)) := by
        apply List.mem_filter.2
        refine ⟨hm1, ?_⟩
        simp only [Bool.and_eq_true, decide_eq_true_eq]
        exact ⟨hm2, by linarith⟩
      rw [h0] at hmem
      exact absurd hmem (by simp)
  refine ⟨_, clusterKptMatchesWithROI_eq norm boundingBox kptsPrev kptsCurr kptMatches hempty
    hidx hsome, hiff, ?_⟩
  intro h0
  by_contra hne
  have := hiff.1 hne
  rw [h0] at this
  exact lt_irrefl _ this

/-- C19 at a concrete input: three matches with current keypoints inside the box and
displacements 1, 1 and 20. -/
theorem clusterKptMatchesWithROI_nonempty_iff_witness :
    ∃ b : BoundingBox,
      clusterKptMatchesWithROI l2norm ⟨0, ⟨0, 0, 100, 100⟩, [], []⟩
        [⟨⟨10, 0⟩⟩, ⟨⟨20, 0⟩⟩, ⟨⟨30, 0⟩⟩] [⟨⟨11, 0⟩⟩, ⟨⟨21, 0⟩⟩, ⟨⟨50, 0⟩⟩]
        [⟨0, 0⟩, ⟨1, 1⟩, ⟨2, 2⟩] = some b ∧
      (b.kptMatches ≠ [] ↔
        0 < meanDisplacement l2norm ⟨0, 0, 100, 100⟩ [⟨⟨10, 0⟩⟩, ⟨⟨20, 0⟩⟩, ⟨⟨30, 0⟩⟩]
          [⟨⟨11, 0⟩⟩, ⟨⟨21, 0⟩⟩, ⟨⟨50, 0⟩⟩] [⟨0, 0⟩, ⟨1, 1⟩, ⟨2, 2⟩]) ∧
      (meanDisplacement l2norm ⟨0, 0, 100, 100⟩ [⟨⟨10, 0⟩⟩, ⟨⟨20, 0⟩⟩, ⟨⟨30, 0⟩⟩]
          [⟨⟨11, 0⟩⟩, ⟨⟨21, 0⟩⟩, ⟨⟨50, 0⟩⟩] [⟨0, 0⟩, ⟨1, 1⟩, ⟨2, 2⟩] = 0 →
        b.kptMatches = []) :=
  clusterKptMatchesWithROI_nonempty_iff l2norm ⟨0, ⟨0, 0, 100, 100⟩, [], []⟩
    [⟨⟨10, 0⟩⟩, ⟨⟨20, 0⟩⟩, ⟨⟨30, 0⟩⟩] [⟨⟨11, 0⟩⟩, ⟨⟨21, 0⟩⟩, ⟨⟨50, 0⟩⟩]
    [⟨0, 0⟩, ⟨1, 1⟩, ⟨2, 2⟩] (fun v => Rat.sqrt_nonneg _) rfl (by simp)
    ⟨⟨0, 0⟩, by simp, by
      norm_num [currInside, Point2f.toPoint, cvRound, Rect.contains]⟩

theorem truncToInt_intCast (n : Int) : truncToInt (n : ℚ) = n := by
  by_cases h : (0 : ℚ) ≤ n
  · simp [truncToInt, h]
  · have : -(n : ℚ) = ((-n : Int) : ℚ) := by push_cast; ring
    simp only [truncToInt, h, if_false, this, Int.floor_intCast]
    omega

/-- C11 (counterexample). Boxes `(0, 0, 10, 10)` and `(10, 0, 10, 10)` with shrink factor 0
are adjacent and do not overlap: the right edge of the first is the left edge `x = 10` of
the second.  A range point whose pixel is `(10, 5)`, on that edge, is appended to the second
box. -/
theorem clusterLidarWithROI_shared_edge_assigned :
    (shrinkBox ⟨0, 0, 10, 10⟩ 0).x + (shrinkBox ⟨0, 0, 10, 10⟩ 0).width =
      (shrinkBox ⟨10, 0, 10, 10⟩ 0).x ∧
    (shrinkBox ⟨10, 0, 10, 10⟩ 0).x = 10 ∧
    clusterLidarWithROI [⟨0, ⟨0, 0, 10, 10⟩, [], []⟩, ⟨1, ⟨10, 0, 10, 10⟩, [], []⟩]
      [⟨10, 5, 0, 0⟩] 0 (fun p => ⟨truncToInt p.x, truncToInt p.y⟩) =
      [⟨0, ⟨0, 0, 10, 10⟩, [], []⟩, ⟨1, ⟨10, 0, 10, 10⟩, [⟨10, 5, 0, 0⟩], []⟩] := by
  refine ⟨by norm_num [shrinkBox, truncToInt], by norm_num [shrinkBox, truncToInt], ?_⟩
  norm_num [clusterLidarWithROI, clusterLidarStep, enclosingBoxes, enclosingBoxesFrom,
    shrinkBox, truncToInt, Rect.contains, pushLidarPoint]

/-- C11 (amended). Two boxes whose shrunk regions are adjacent (the right edge of the first
is the left edge of the second, or the bottom edge of the first is the top edge of the
second) and a range point whose pixel lies on the shared edge: the pixel is not in the
shrunk region of the first box, which is left unchanged; the point is appended to the second
box when the shrunk region of that box contains the pixel and no other shrunk region
does. -/
theorem clusterLidarWithROI_shared_edge (boundingBoxes : List BoundingBox) (shrinkFactor : ℚ)
    (pixel : LidarPoint → Point) (p : LidarPoint) (a b : Nat) (boxA boxB : BoundingBox)
    (hA : boundingBoxes[a]? = some boxA) (hB : boundingBoxes[b]? = some boxB)
    (hedge :
      ((shrinkBox boxA.roi shrinkFactor).x + (shrinkBox boxA.roi shrinkFactor).width =
          (shrinkBox boxB.roi shrinkFactor).x ∧
        (pixel p).x = (shrinkBox boxB.roi shrinkFactor).x) ∨
      ((shrinkBox boxA.roi shrinkFactor).y + (shrinkBox boxA.roi shrinkFactor).height =
          (shrinkBox boxB.roi shrinkFactor).y ∧
        (pixel p).y = (shrinkBox boxB.roi shrinkFactor).y)) :
    shrunkContains boundingBoxes shrinkFactor (pixel p) a = false ∧
    (clusterLidarWithROI boundingBoxes [p] shrinkFactor pixel)[a]? = some boxA ∧
    ((shrinkBox boxB.roi shrinkFactor).contains (pixel p) = true →
      (∀ j, j ≠ b → shrunkContains boundingBoxes shrinkFactor (pixel p) j = false) →
      (clusterLidarWithROI boundingBoxes [p] shrinkFactor pixel)[b]? =
        some { boxB with lidarPoints := boxB.lidarPoints ++ [p] }) := by
  have hnotA : shrunkContains boundingBoxes shrinkFactor (pixel p) a = false := by
    cases hc : shrunkContains boundingBoxes shrinkFactor (pixel p) a
    · rfl
    · exfalso
      simp only [shrunkContains, hA, Option.any_some] at hc
      rw [contains_iff] at hc
      rcases hedge with ⟨h1, h2⟩ | ⟨h1, h2⟩
      · omega
      · omega
  have honlyA : onlyEnclosing boundingBoxes shrinkFactor (pixel p) a = false := by
    simp [onlyEnclosing, hnotA]
  refine ⟨hnotA, ?_, ?_⟩
  · rw [getElem?_clusterLidarWithROI, hA]
    simp [List.filter, honlyA]
  · intro hcB hothers
    have honlyB : onlyEnclosing boundingBoxes shrinkFactor (pixel p) b = true := by
      simp only [onlyEnclosing, decide_eq_true_eq]
      refine ⟨by simp [shrunkContains, hB, hcB], ?_⟩
      intro j _ hj
      by_contra hne
      rw [hothers j hne] at hj
      exact absurd hj (by simp)
    rw [getElem?_clusterLidarWithROI, hB]
    simp [List.filter, honlyB]

/-- C11 (amended) at a concrete input: boxes `(0, 0, 10, 10)` and `(10, 0, 10, 10)`, shrink
factor 0, pixel `(10, 5)`. -/
theorem clusterLidarWithROI_shared_edge_witness :
    shrunkContains [⟨0, ⟨0, 0, 10, 10⟩, [], []⟩, ⟨1, ⟨10, 0, 10, 10⟩, [], []⟩] 0
      ((fun p : LidarPoint => (⟨truncToInt p.x, truncToInt p.y⟩ : Point)) ⟨10, 5, 0, 0⟩) 0 =
      false ∧
    (clusterLidarWithROI [⟨0, ⟨0, 0, 10, 10⟩, [], []⟩, ⟨1, ⟨10, 0, 10, 10⟩, [], []⟩]
      [⟨10, 5, 0, 0⟩] 0 (fun p => ⟨truncToInt p.x, truncToInt p.y⟩))[0]? =
      some ⟨0, ⟨0, 0, 10, 10⟩, [], []⟩ :=
  have h := clusterLidarWithROI_shared_edge
    [⟨0, ⟨0, 0, 10, 10⟩, [], []⟩, ⟨1, ⟨10, 0, 10, 10⟩, [], []⟩] 0
    (fun p => ⟨truncToInt p.x, truncToInt p.y⟩) ⟨10, 5, 0, 0⟩ 0 1
    ⟨0, ⟨0, 0, 10, 10⟩, [], []⟩ ⟨1, ⟨10, 0, 10, 10⟩, [], []⟩ rfl rfl
    (Or.inl ⟨by norm_num [shrinkBox, truncToInt], by norm_num [shrinkBox, truncToInt]⟩)
  ⟨h.1, h.2.1⟩

/-! ### Binary floating point and the rounded shrunk region -/

theorem cvRound_sub_le (z : ℚ) : |(cvRound z : ℚ) - z| ≤ 1 / 2 := by
  have h1 := Int.floor_le z
  have h2 := Int.lt_floor_add_one z
  unfold cvRound
  split_ifs with ha hb hc
  · rw [abs_le]; constructor <;> linarith
  · rw [abs_le]; push_cast; constructor <;> linarith
  · rw [abs_le]; constructor <;> linarith
  · rw [abs_le]; push_cast; constructor <;> linarith

theorem le_cvRound {n : Int} {z : ℚ} (h : (n : ℚ) ≤ z) : n ≤ cvRound z := by
  have hf : n ≤ ⌊z⌋ := Int.le_floor.2 h
  unfold cvRound
  split_ifs <;> omega

theorem cvRound_le {n : Int} {z : ℚ} (h : z ≤ (n : ℚ)) : cvRound z ≤ n := by
  have h1 := Int.floor_le z
  unfold cvRound
  split_ifs with ha hb hc
  · have : (⌊z⌋ : ℚ) ≤ n := le_trans h1 h
    exact_mod_cast this
  · have : (⌊z⌋ : ℚ) < n := by linarith
    have : ⌊z⌋ < n := by exact_mod_cast this
    omega
  · have : (⌊z⌋ : ℚ) ≤ n := le_trans h1 h
    exact_mod_cast this
  · have hfrac : z - ⌊z⌋ = 1 / 2 := by
      have h3 := not_lt.mp ha
      have h4 := not_lt.mp hb
      linarith
    have : (⌊z⌋ : ℚ) < n := by linarith
    have : ⌊z⌋ < n := by exact_mod_cast this
    omega

/-- The relative error of a rounding to `p` bits is at most `2 ^ (-p)`. -/
theorem roundToPrec_sub_le (p : Nat) (q : ℚ) : |roundToPrec p q - q| ≤ |q| / 2 ^ p := by
  by_cases hq : q = 0
  · subst hq
    simp [roundToPrec, cvRound]
  · have hpos : 0 < |q| := abs_pos.mpr hq
    have hlog : (2 : ℚ) ^ Int.log 2 |q| ≤ |q| := by
      have := Int.zpow_log_le_self (b := 2) (by norm_num) hpos
      simpa using this
    have hU : (0 : ℚ) < 2 ^ (Int.log 2 |q| + 1 - (p : Int)) := zpow_pos (by norm_num) _
    have hUeq : (2 : ℚ) ^ (Int.log 2 |q| + 1 - (p : Int)) = 2 ^ Int.log 2 |q| * 2 / 2 ^ p := by
      rw [zpow_sub₀ (by norm_num : (2 : ℚ) ≠ 0), zpow_add₀ (by norm_num : (2 : ℚ) ≠ 0),
        zpow_one, zpow_natCast]
    have hcv := cvRound_sub_le (q / 2 ^ (Int.log 2 |q| + 1 - (p : Int)))
    have key : roundToPrec p q - q =
        ((cvRound (q / 2 ^ (Int.log 2 |q| + 1 - (p : Int))) : ℚ) -
          q / 2 ^ (Int.log 2 |q| + 1 - (p : Int))) * 2 ^ (Int.log 2 |q| + 1 - (p : Int)) := by
      unfold roundToPrec
      field_simp
    rw [key, abs_mul, abs_of_pos hU]
    have h2p : (0 : ℚ) < 2 ^ p := pow_pos (by norm_num) p
    calc |(cvRound (q / 2 ^ (Int.log 2 |q| + 1 - (p : Int))) : ℚ) -
            q / 2 ^ (Int.log 2 |q| + 1 - (p : Int))| * 2 ^ (Int.log 2 |q| + 1 - (p : Int))
        ≤ 1 / 2 * 2 ^ (Int.log 2 |q| + 1 - (p : Int)) :=
          mul_le_mul_of_nonneg_right hcv hU.le
      _ = 2 ^ Int.log 2 |q| / 2 ^ p := by rw [hUeq]; ring
      _ ≤ |q| / 2 ^ p := div_le_div_of_nonneg_right hlog h2p.le

theorem roundToPrec_exponent (p : Nat) (hp : 1 ≤ p) (q : ℚ) (hq : |q| < 2 ^ p) :
    ∃ j : Nat, (2 : ℚ) ^ (Int.log 2 |q| + 1 - (p : Int)) = ((2 : ℚ) ^ j)⁻¹ := by
  have hlt : Int.log 2 |q| < (p : Int) := by
    by_cases h0 : q = 0
    · subst h0
      simp only [abs_zero, Int.log_zero_right]
      exact_mod_cast hp
    · have hpos : 0 < |q| := abs_pos.mpr h0
      apply (Int.lt_zpow_iff_log_lt (b := 2) (by norm_num) hpos).1
      rw [zpow_natCast]
      exact_mod_cast hq
  refine ⟨((p : Int) - (Int.log 2 |q| + 1)).toNat, ?_⟩
  have hj : Int.log 2 |q| + 1 - (p : Int) =
      -((((p : Int) - (Int.log 2 |q| + 1)).toNat : Nat) : Int) := by
    rw [Int.toNat_of_nonneg (by omega)]
    ring
  rw [hj, zpow_neg, zpow_natCast]

/-- A rounding does not cross an integer that the format holds: below. -/
theorem le_roundToPrec (p : Nat) (hp : 1 ≤ p) (q : ℚ) (hq : |q| < 2 ^ p) (n : Int)
    (h : (n : ℚ) ≤ q) : (n : ℚ) ≤ roundToPrec p q := by
  obtain ⟨j, hj⟩ := roundToPrec_exponent p hp q hq
  unfold roundToPrec
  rw [hj]
  have h2 : (0 : ℚ) < 2 ^ j := pow_pos (by norm_num) j
  have hz : ((n * 2 ^ j : Int) : ℚ) ≤ q / ((2 : ℚ) ^ j)⁻¹ := by
    rw [div_inv_eq_mul]
    push_cast
    exact mul_le_mul_of_nonneg_right h h2.le
  have hc : ((n * 2 ^ j : Int) : ℚ) ≤ (cvRound (q / ((2 : ℚ) ^ j)⁻¹) : ℚ) := by
    exact_mod_cast le_cvRound hz
  calc (n : ℚ) = ((n * 2 ^ j : Int) : ℚ) * ((2 : ℚ) ^ j)⁻¹ := by
        push_cast; field_simp
    _ ≤ (cvRound (q / ((2 : ℚ) ^ j)⁻¹) : ℚ) * ((2 : ℚ) ^ j)⁻¹ :=
        mul_le_mul_of_nonneg_right hc (inv_nonneg.2 h2.le)

/-- A rounding does not cross an integer that the format holds: above. -/
theorem roundToPrec_le (p : Nat) (hp : 1 ≤ p) (q : ℚ) (hq : |q| < 2 ^ p) (n : Int)
    (h : q ≤ (n : ℚ)) : roundToPrec p q ≤ (n : ℚ) := by
  obtain ⟨j, hj⟩ := roundToPrec_exponent p hp q hq
  unfold roundToPrec
  rw [hj]
  have h2 : (0 : ℚ) < 2 ^ j := pow_pos (by norm_num) j
  have hz : q / ((2 : ℚ) ^ j)⁻¹ ≤ ((n * 2 ^ j : Int) : ℚ) := by
    rw [div_inv_eq_mul]
    push_cast
    exact mul_le_mul_of_nonneg_right h h2.le
  have hc : (cvRound (q / ((2 : ℚ) ^ j)⁻¹) : ℚ) ≤ ((n * 2 ^ j : Int) : ℚ) := by
    exact_mod_cast cvRound_le hz
  calc (cvRound (q / ((2 : ℚ) ^ j)⁻¹) : ℚ) * ((2 : ℚ) ^ j)⁻¹
      ≤ ((n * 2 ^ j : Int) : ℚ) * ((2 : ℚ) ^ j)⁻¹ :=
        mul_le_mul_of_nonneg_right hc (inv_nonneg.2 h2.le)
    _ = (n : ℚ) := by push_cast; field_simp

theorem roundToPrec_intCast (p : Nat) (hp : 1 ≤ p) (n : Int) (hn : |(n : ℚ)| < 2 ^ p) :
    roundToPrec p (n : ℚ) = n :=
  le_antisymm (roundToPrec_le p hp n hn n (le_refl _)) (le_roundToPrec p hp n hn n (le_refl _))

theorem log_two_eq {r : ℚ} {e : Int} (h1 : (2 : ℚ) ^ e ≤ r) (h2 : r < (2 : ℚ) ^ (e + 1)) :
    Int.log 2 r = e := by
  have hpos : 0 < r := lt_of_lt_of_le (zpow_pos (by norm_num) e) h1
  have ha : Int.log 2 r < e + 1 :=
    (Int.lt_zpow_iff_log_lt (b := 2) (by norm_num) hpos).1 (by simpa using h2)
  have hb : e ≤ Int.log 2 r :=
    (Int.zpow_le_iff_le_log (b := 2) (by norm_num) hpos).1 (by simpa using h1)
  omega

theorem roundToPrec_eval (p : Nat) (e : Int) (q : ℚ) (h1 : (2 : ℚ) ^ e ≤ |q|)
    (h2 : |q| < (2 : ℚ) ^ (e + 1)) :
    roundToPrec p q =
      (cvRound (q / (2 : ℚ) ^ (e + 1 - (p : Int))) : ℚ) * (2 : ℚ) ^ (e + 1 - (p : Int)) := by
  unfold roundToPrec
  rw [log_two_eq h1 h2]

theorem toFloat_intCast (n : Int) (hn : |(n : ℚ)| < 2 ^ 24) : toFloat (n : ℚ) = n :=
  roundToPrec_intCast 24 (by norm_num) n hn

theorem toFloat_sub_le (q : ℚ) : |toFloat q - q| ≤ |q| / 2 ^ 24 := roundToPrec_sub_le 24 q

theorem toDouble_sub_le (q : ℚ) : |toDouble q - q| ≤ |q| / 2 ^ 53 := roundToPrec_sub_le 53 q

/-- The `float` nearest to a value of `[0, 1]` exceeds it by at most half a unit in the last
place of the binade below one, `2 ^ (-25)`. -/
theorem toFloat_le_add_of_le_one (q : ℚ) (h0 : 0 ≤ q) (h1 : q ≤ 1) :
    toFloat q ≤ q + 1 / 2 ^ 25 := by
  by_cases hhalf : q < 1 / 2
  · have := toFloat_sub_le q
    rw [abs_of_nonneg h0] at this
    have h2 := (abs_le.1 this).2
    have h3 : q / 2 ^ 24 ≤ 1 / 2 ^ 25 := by
      norm_num at hhalf ⊢
      linarith
    linarith
  · have hhalf2 : 1 / 2 ≤ q := not_lt.1 hhalf
    by_cases hone : q = 1
    · subst hone
      have := toFloat_intCast 1 (by norm_num)
      norm_num at this ⊢
      rw [this]
      norm_num
    · have hlt : q < 1 := lt_of_le_of_ne h1 hone
      have e1 : (2 : ℚ) ^ (-1 : Int) ≤ |q| := by
        rw [abs_of_nonneg h0]
        norm_num at hhalf2 ⊢
        linarith
      have e2 : |q| < (2 : ℚ) ^ ((-1 : Int) + 1) := by
        rw [abs_of_nonneg h0]
        norm_num
        exact hlt
      rw [toFloat, roundToPrec_eval 24 (-1) q e1 e2]
      have hcv := cvRound_sub_le (q / (2 : ℚ) ^ ((-1 : Int) + 1 - ((24 : Nat) : Int)))
      have hU : (2 : ℚ) ^ ((-1 : Int) + 1 - ((24 : Nat) : Int)) = 1 / 2 ^ 24 := by
        norm_num [zpow_neg]
      rw [hU] at hcv ⊢
      have h2 := (abs_le.1 hcv).2
      have h3 : q / (1 / 2 ^ 24) = q * 2 ^ 24 := by field_simp
      rw [h3] at h2 ⊢
      have h4 : (cvRound (q * 2 ^ 24) : ℚ) ≤ q * 2 ^ 24 + 1 / 2 := by linarith
      calc (cvRound (q * 2 ^ 24) : ℚ) * (1 / 2 ^ 24)
          ≤ (q * 2 ^ 24 + 1 / 2) * (1 / 2 ^ 24) :=
            mul_le_mul_of_nonneg_right h4 (by norm_num)
        _ = q + 1 / 2 ^ 25 := by ring

/-- One axis of the rounded shrunk region of a box of non-negative extent below `2 ^ 24` at a
coordinate of absolute value at most `2 ^ 30`: the near edge is not before the near edge of
the box, the far edge is at most one pixel after the far edge of the box, and not after it
when the box starts at a non-negative coordinate. -/
theorem smaller_axis (x0 w p : Int) (s : ℚ) (h0 : 0 ≤ s) (h1 : s < 1) (hw0 : 0 ≤ w)
    (hw : w < 2 ^ 24) (hx0 : -(2 ^ 30) ≤ x0) (hx1 : x0 ≤ 2 ^ 30)
    (hlo : truncToInt (toDouble ((x0 : ℚ) + toDouble (toFloat (s * toFloat w) / 2))) ≤ p)
    (hhi : p < truncToInt (toDouble ((x0 : ℚ) + toDouble (toFloat (s * toFloat w) / 2))) +
      truncToInt (toFloat (toFloat w * toFloat (1 - s)))) :
    x0 ≤ p ∧ p < x0 + w + 1 ∧ (0 ≤ x0 → p < x0 + w) := by
  have hwq0 : (0 : ℚ) ≤ w := by exact_mod_cast hw0
  have hwq : (w : ℚ) < 2 ^ 24 := by exact_mod_cast hw
  have hxq0 : -(2 ^ 30 : ℚ) ≤ x0 := by exact_mod_cast hx0
  have hxq1 : (x0 : ℚ) ≤ 2 ^ 30 := by exact_mod_cast hx1
  have hwf : toFloat (w : ℚ) = w := by
    apply toFloat_intCast
    rw [abs_of_nonneg hwq0]
    exact hwq
  rw [hwf] at hlo hhi
  -- the product `shrinkFactor * width`
  have ht0 : 0 ≤ s * (w : ℚ) := mul_nonneg h0 hwq0
  have htw : s * (w : ℚ) ≤ w := by nlinarith
  have htabs : |s * (w : ℚ)| < 2 ^ 24 := by
    rw [abs_of_nonneg ht0]
    linarith
  have hA0 : (0 : ℚ) ≤ toFloat (s * w) := by
    have := le_roundToPrec 24 (by norm_num) (s * w) htabs 0 (by simpa using ht0)
    simpa [toFloat] using this
  have hAw : toFloat (s * w) ≤ (w : ℚ) :=
    roundToPrec_le 24 (by norm_num) (s * w) htabs w htw
  have hAerr : toFloat (s * w) ≤ s * w + s * w / 2 ^ 24 := by
    have := toFloat_sub_le (s * w)
    rw [abs_of_nonneg ht0] at this
    linarith [(abs_le.1 this).2]
  -- its half, as a `double`
  have hh0 : 0 ≤ toFloat (s * w) / 2 := by linarith
  have hhw : toFloat (s * w) / 2 ≤ (w : ℚ) := by linarith
  have hhabs : |toFloat (s * w) / 2| < 2 ^ 53 := by
    rw [abs_of_nonneg hh0]
    linarith [show (2 : ℚ) ^ 24 < 2 ^ 53 by norm_num]
  have ha0 : (0 : ℚ) ≤ toDouble (toFloat (s * w) / 2) := by
    have := le_roundToPrec 53 (by norm_num) _ hhabs 0 (by simpa using hh0)
    simpa [toDouble] using this
  have haw : toDouble (toFloat (s * w) / 2) ≤ (w : ℚ) :=
    roundToPrec_le 53 (by norm_num) _ hhabs w hhw
  have haerr : toDouble (toFloat (s * w) / 2) ≤
      toFloat (s * w) / 2 + toFloat (s * w) / 2 / 2 ^ 53 := by
    have := toDouble_sub_le (toFloat (s * w) / 2)
    rw [abs_of_nonneg hh0] at this
    linarith [(abs_le.1 this).2]
  -- the sum with the origin, as a `double`
  have hSabs : |(x0 : ℚ) + toDouble (toFloat (s * w) / 2)| ≤ 2 ^ 31 := by
    rw [abs_le]
    constructor <;> norm_num at hxq0 hxq1 hwq ⊢ <;> linarith
  have hSabs2 : |(x0 : ℚ) + toDouble (toFloat (s * w) / 2)| < 2 ^ 53 :=
    lt_of_le_of_lt hSabs (by norm_num)
  have hXlo : (x0 : ℚ) ≤ toDouble ((x0 : ℚ) + toDouble (toFloat (s * w) / 2)) :=
    le_roundToPrec 53 (by norm_num) _ hSabs2 x0 (by linarith)
  have hXerr : toDouble ((x0 : ℚ) + toDouble (toFloat (s * w) / 2)) ≤
      (x0 : ℚ) + toDouble (toFloat (s * w) / 2) + 2 ^ 31 / 2 ^ 53 := by
    have := toDouble_sub_le ((x0 : ℚ) + toDouble (toFloat (s * w) / 2))
    have h2 : |(x0 : ℚ) + toDouble (toFloat (s * w) / 2)| / 2 ^ 53 ≤ 2 ^ 31 / 2 ^ 53 :=
      div_le_div_of_nonneg_right hSabs (by norm_num)
    linarith [(abs_le.1 this).2]
  -- the factor `1 - shrinkFactor`, as a `float`
  have hc1 : (0 : ℚ) ≤ 1 - s := by linarith
  have hcabs : |1 - s| < 2 ^ 24 := by
    rw [abs_of_nonneg hc1]
    linarith [show (1 : ℚ) < 2 ^ 24 by norm_num]
  have hc0 : (0 : ℚ) ≤ toFloat (1 - s) := by
    have := le_roundToPrec 24 (by norm_num) (1 - s) hcabs 0 (by simpa using hc1)
    simpa [toFloat] using this
  have hcle : toFloat (1 - s) ≤ 1 := by
    have := roundToPrec_le 24 (by norm_num) (1 - s) hcabs 1 (by simpa using h0)
    simpa [toFloat] using this
  have hcerr : toFloat (1 - s) ≤ (1 - s) + 1 / 2 ^ 25 :=
    toFloat_le_add_of_le_one (1 - s) hc1 (by linarith)
  -- the product `width * (1 - shrinkFactor)`, as a `float`
  have hP0 : 0 ≤ (w : ℚ) * toFloat (1 - s) := mul_nonneg hwq0 hc0
  have hPw : (w : ℚ) * toFloat (1 - s) ≤ w := by nlinarith
  have hPerr : (w : ℚ) * toFloat (1 - s) ≤ (w - s * w) + w / 2 ^ 25 := by
    have := mul_le_mul_of_nonneg_left hcerr hwq0
    calc (w : ℚ) * toFloat (1 - s) ≤ w * ((1 - s) + 1 / 2 ^ 25) := this
      _ = (w - s * w) + w / 2 ^ 25 := by ring
  have hPabs : |(w : ℚ) * toFloat (1 - s)| < 2 ^ 24 := by
    rw [abs_of_nonneg hP0]
    linarith
  have hW0 : (0 : ℚ) ≤ toFloat ((w : ℚ) * toFloat (1 - s)) := by
    have := le_roundToPrec 24 (by norm_num) _ hPabs 0 (by simpa using hP0)
    simpa [toFloat] using this
  have hWt := truncToInt_le_of_nonneg hW0
  -- an integer number of pixels the origin moves by takes as many off the extent
  have hkey : ∀ i : Int,
      (i : ℚ) ≤ toDouble ((x0 : ℚ) + toDouble (toFloat (s * w) / 2)) - x0 →
      i + truncToInt (toFloat ((w : ℚ) * toFloat (1 - s))) ≤ w := by
    intro i hi
    by_cases hP : (w : ℚ) * toFloat (1 - s) ≤ ((w - i : Int) : ℚ)
    · have hW : toFloat ((w : ℚ) * toFloat (1 - s)) ≤ ((w - i : Int) : ℚ) :=
        roundToPrec_le 24 (by norm_num) _ hPabs (w - i) hP
      have : ((truncToInt (toFloat ((w : ℚ) * toFloat (1 - s))) : Int) : ℚ) ≤
          ((w - i : Int) : ℚ) := le_trans hWt hW
      have : truncToInt (toFloat ((w : ℚ) * toFloat (1 - s))) ≤ w - i := by
        exact_mod_cast this
      omega
    · exfalso
      have hP2 : ((w : ℚ) - i) < (w : ℚ) * toFloat (1 - s) := by
        have := not_le.1 hP
        push_cast at this
        exact this
      have hipos : (0 : ℚ) < i := by linarith
      have hi1 : (1 : ℚ) ≤ i := by
        have : (0 : Int) < i := by exact_mod_cast hipos
        have : (1 : Int) ≤ i := by omega
        exact_mod_cast this
      norm_num at hAerr haerr hXerr hPerr hwq
      linarith
  have hXt1 := truncToInt_lt_add_one (toDouble ((x0 : ℚ) + toDouble (toFloat (s * w) / 2)))
  have hnear : x0 ≤ truncToInt (toDouble ((x0 : ℚ) + toDouble (toFloat (s * w) / 2))) := by
    have := truncToInt_mono hXlo
    rwa [truncToInt_intCast] at this
  refine ⟨le_trans hnear hlo, ?_, ?_⟩
  · have hi : ((truncToInt (toDouble ((x0 : ℚ) + toDouble (toFloat (s * w) / 2))) - x0 - 1 :
        Int) : ℚ) ≤ toDouble ((x0 : ℚ) + toDouble (toFloat (s * w) / 2)) - x0 := by
      push_cast
      linarith
    have := hkey _ hi
    omega
  · intro hx
    have hxq : (0 : ℚ) ≤ x0 := by exact_mod_cast hx
    have hXt := truncToInt_le_of_nonneg (le_trans hxq hXlo)
    have hi : ((truncToInt (toDouble ((x0 : ℚ) + toDouble (toFloat (s * w) / 2))) - x0 :
        Int) : ℚ) ≤ toDouble ((x0 : ℚ) + toDouble (toFloat (s * w) / 2)) - x0 := by
      push_cast
      linarith
    have := hkey _ hi
    omega

theorem toDouble_intCast (n : Int) (hn : |(n : ℚ)| < 2 ^ 53) : toDouble (n : ℚ) = n :=
  roundToPrec_intCast 53 (by norm_num) n hn

theorem roundExample_width : toFloat 10 = 10 := by
  have := toFloat_intCast 10 (by norm_num)
  simpa using this

theorem roundExample_product : toFloat (1 / 2 ^ 30 * 10) = 10 / 2 ^ 30 := by
  rw [toFloat, roundToPrec_eval 24 (-27) _ (by norm_num [abs_of_pos]) (by norm_num [abs_of_pos])]
  norm_num [cvRound]

theorem roundExample_half : toDouble (10 / 2 ^ 30 / 2) = 5 / 2 ^ 30 := by
  rw [toDouble, roundToPrec_eval 53 (-28) _ (by norm_num [abs_of_pos])
    (by norm_num [abs_of_pos])]
  norm_num [cvRound]

theorem roundExample_sum_x : toDouble (-5 + 5 / 2 ^ 30) = -5 + 5 / 2 ^ 30 := by
  rw [toDouble, roundToPrec_eval 53 2 _ (by norm_num [abs_of_neg]) (by norm_num [abs_of_neg])]
  norm_num [cvRound]

theorem roundExample_sum_y : toDouble (0 + 5 / 2 ^ 30) = 5 / 2 ^ 30 := by
  rw [toDouble, roundToPrec_eval 53 (-28) _ (by norm_num [abs_of_pos])
    (by norm_num [abs_of_pos])]
  norm_num [cvRound]

theorem roundExample_factor : toFloat (1 - 1 / 2 ^ 30) = 1 := by
  rw [toFloat, roundToPrec_eval 24 (-1) _ (by norm_num [abs_of_pos]) (by norm_num [abs_of_pos])]
  norm_num [cvRound]

theorem roundExample_box : smallerBox ⟨-5, 0, 10, 10⟩ (1 / 2 ^ 30) = ⟨-4, 0, 10, 10⟩ := by
  have h1 : toFloat (10 * 1) = 10 := by
    rw [mul_one]; exact roundExample_width
  simp only [smallerBox, Int.cast_neg, Int.cast_ofNat, Int.cast_zero]
  rw [roundExample_width, roundExample_product, roundExample_half, roundExample_sum_x,
    roundExample_sum_y, roundExample_factor, h1]
  norm_num [truncToInt]

/-- C15 (counterexample). Box `(-5, 0, 10, 10)` and shrink factor `2 ^ (-30)`, a `float`.  In
`float` arithmetic `1 - shrinkFactor` is `1`, so the width stays `10`; the origin
`-5 + 5 * 2 ^ (-30)` is truncated toward zero to `-4`.  The shrunk region `(-4, 0, 10, 10)`
contains the pixel `(5, 5)`, which the region of the box does not. -/
theorem smallerBox_not_subset :
    (0 : ℚ) ≤ 1 / 2 ^ 30 ∧ (1 / 2 ^ 30 : ℚ) < 1 ∧
    toFloat (1 / 2 ^ 30) = 1 / 2 ^ 30 ∧
    smallerBox ⟨-5, 0, 10, 10⟩ (1 / 2 ^ 30) = ⟨-4, 0, 10, 10⟩ ∧
    (smallerBox ⟨-5, 0, 10, 10⟩ (1 / 2 ^ 30)).contains ⟨5, 5⟩ = true ∧
    (⟨-5, 0, 10, 10⟩ : Rect).contains ⟨5, 5⟩ = false := by
  refine ⟨by norm_num, by norm_num, ?_, roundExample_box, ?_, by decide⟩
  · rw [toFloat, roundToPrec_eval 24 (-30) _ (by norm_num [abs_of_pos])
      (by norm_num [abs_of_pos])]
    norm_num [cvRound]
  · rw [roundExample_box]
    decide

theorem roundExample_wide_width : toFloat 16777219 = 16777220 := by
  rw [toFloat, roundToPrec_eval 24 24 _ (by norm_num [abs_of_pos]) (by norm_num [abs_of_pos])]
  norm_num [cvRound]

theorem roundExample_wide_product : toFloat (1 / 2 ^ 30 * 16777220) = 16777220 / 2 ^ 30 := by
  rw [toFloat, roundToPrec_eval 24 (-6) _ (by norm_num [abs_of_pos]) (by norm_num [abs_of_pos])]
  norm_num [cvRound]

theorem roundExample_wide_half : toDouble (16777220 / 2 ^ 30 / 2) = 8388610 / 2 ^ 30 := by
  rw [toDouble, roundToPrec_eval 53 (-7) _ (by norm_num [abs_of_pos])
    (by norm_num [abs_of_pos])]
  norm_num [cvRound]

theorem roundExample_wide_sum : toDouble (0 + 8388610 / 2 ^ 30) = 8388610 / 2 ^ 30 := by
  rw [toDouble, roundToPrec_eval 53 (-7) _ (by norm_num [abs_of_pos])
    (by norm_num [abs_of_pos])]
  norm_num [cvRound]

theorem roundExample_wide_extent : toFloat (16777220 * 1) = 16777220 := by
  rw [toFloat, roundToPrec_eval 24 24 _ (by norm_num [abs_of_pos]) (by norm_num [abs_of_pos])]
  norm_num [cvRound]

theorem roundExample_wide_box :
    smallerBox ⟨0, 0, 16777219, 10⟩ (1 / 2 ^ 30) = ⟨0, 0, 16777220, 10⟩ := by
  have h1 : toFloat (10 * 1) = 10 := by
    rw [mul_one]; exact roundExample_width
  simp only [smallerBox, Int.cast_ofNat, Int.cast_zero]
  rw [roundExample_wide_width, roundExample_wide_product, roundExample_wide_half,
    roundExample_wide_sum, roundExample_width, roundExample_product, roundExample_half,
    roundExample_sum_y, roundExample_factor, roundExample_wide_extent, h1]
  norm_num [truncToInt]

/-- A box of non-negative origin need not contain its rounded shrunk region when its extent
is not a `float`: the width `2 ^ 24 + 3 = 16777219` is converted to `16777220`, which the
factor `1 - 2 ^ (-30)`, rounded to `1`, leaves as the width of the shrunk region; the region
of the box `(0, 0, 16777219, 10)` shrunk by `2 ^ (-30)` is `(0, 0, 16777220, 10)` and
contains the pixel `(16777219, 5)`, which the region of the box does not. -/
theorem smallerBox_wide_not_subset :
    smallerBox ⟨0, 0, 16777219, 10⟩ (1 / 2 ^ 30) = ⟨0, 0, 16777220, 10⟩ ∧
    (smallerBox ⟨0, 0, 16777219, 10⟩ (1 / 2 ^ 30)).contains ⟨16777219, 5⟩ = true ∧
    (⟨0, 0, 16777219, 10⟩ : Rect).contains ⟨16777219, 5⟩ = false := by
  refine ⟨roundExample_wide_box, ?_, by decide⟩
  rw [roundExample_wide_box]
  decide

/-- C15 (amended). For a box of non-negative width and height below `2 ^ 24` (the integers
a `float` holds exactly) at coordinates of absolute value at most `2 ^ 30` (so that no `int`
overflows), and a shrink factor in `[0, 1)`: every pixel contained in the shrunk region,
computed with the `float` and `double` roundings and the `int` truncations of the code, lies
at or after the left and top edges of the box and before its right and bottom edges moved
outward by one pixel; it lies before the right edge itself when `roi.x` is non-negative and
before the bottom edge itself when `roi.y` is, so a box with non-negative origin contains
its shrunk region. -/
theorem smallerBox_subset (roi : Rect) (pt : Point) (shrinkFactor : ℚ)
    (h0 : 0 ≤ shrinkFactor) (h1 : shrinkFactor < 1)
    (hw : 0 ≤ roi.width) (hh : 0 ≤ roi.height)
    (hwb : roi.width < 2 ^ 24) (hhb : roi.height < 2 ^ 24)
    (hx0 : -(2 ^ 30) ≤ roi.x) (hx1 : roi.x ≤ 2 ^ 30)
    (hy0 : -(2 ^ 30) ≤ roi.y) (hy1 : roi.y ≤ 2 ^ 30)
    (hc : (smallerBox roi shrinkFactor).contains pt = true) :
    (roi.x ≤ pt.x ∧ pt.x < roi.x + roi.width + 1 ∧
      roi.y ≤ pt.y ∧ pt.y < roi.y + roi.height + 1) ∧
    (0 ≤ roi.x → pt.x < roi.x + roi.width) ∧
    (0 ≤ roi.y → pt.y < roi.y + roi.height) ∧
    (0 ≤ roi.x → 0 ≤ roi.y → roi.contains pt = true) := by
  rw [contains_iff] at hc
  obtain ⟨hxlo, hxhi, hylo, hyhi⟩ := hc
  have hx := smaller_axis roi.x roi.width pt.x shrinkFactor h0 h1 hw hwb hx0 hx1 hxlo hxhi
  have hy := smaller_axis roi.y roi.height pt.y shrinkFactor h0 h1 hh hhb hy0 hy1 hylo hyhi
  refine ⟨⟨hx.1, hx.2.1, hy.1, hy.2.1⟩, hx.2.2, hy.2.2, ?_⟩
  intro hxn hyn
  rw [contains_iff]
  exact ⟨hx.1, hx.2.2 hxn, hy.1, hy.2.2 hyn⟩

theorem roundExample_quarter_box : smallerBox ⟨0, 0, 8, 8⟩ (1 / 4) = ⟨1, 1, 6, 6⟩ := by
  have hw : toFloat 8 = 8 := by
    have := toFloat_intCast 8 (by norm_num)
    simpa using this
  have h2 : toFloat (1 / 4 * 8) = 2 := by
    have := toFloat_intCast 2 (by norm_num)
    norm_num at this ⊢
    exact this
  have h3 : toDouble (2 / 2) = 1 := by
    have := toDouble_intCast 1 (by norm_num)
    norm_num at this ⊢
    exact this
  have h4 : toDouble (0 + 1) = 1 := by
    have := toDouble_intCast 1 (by norm_num)
    norm_num at this ⊢
    exact this
  have h5 : toFloat (1 - 1 / 4) = 3 / 4 := by
    rw [toFloat, roundToPrec_eval 24 (-1) _ (by norm_num [abs_of_pos])
      (by norm_num [abs_of_pos])]
    norm_num [cvRound]
  have h6 : toFloat (8 * (3 / 4)) = 6 := by
    have := toFloat_intCast 6 (by norm_num)
    norm_num at this ⊢
    exact this
  simp only [smallerBox, Int.cast_ofNat, Int.cast_zero]
  rw [hw, h2, h3, h4, h5, h6]
  norm_num [truncToInt]

/-- C15 (amended) at a concrete input: box `(0, 0, 8, 8)` shrunk by `1/4` to `(1, 1, 6, 6)`,
pixel `(6, 3)`. -/
theorem smallerBox_subset_witness :
    (smallerBox ⟨0, 0, 8, 8⟩ (1 / 4)).contains ⟨6, 3⟩ = true ∧
    (⟨0, 0, 8, 8⟩ : Rect).contains ⟨6, 3⟩ = true :=
  have hc : (smallerBox ⟨0, 0, 8, 8⟩ (1 / 4)).contains ⟨6, 3⟩ = true := by
    rw [roundExample_quarter_box]; decide
  ⟨hc, (smallerBox_subset ⟨0, 0, 8, 8⟩ ⟨6, 3⟩ (1 / 4) (by norm_num) (by norm_num)
    (by norm_num) (by norm_num) (by norm_num) (by norm_num) (by norm_num) (by norm_num)
    (by norm_num) (by norm_num) hc).2.2.2 (by norm_num) (by norm_num)⟩

end CamFusion
